import Mathlib

/-!
Verification of the linear-maubot label-synchronization and webhook-ingestion
logic against its natural-language specification.

The definitions below are a shallow embedding of the Python source:
  * `Label`, `Label.meta_equals`          — src/linearbot/api/types.py
  * `syncPlan` and its helpers            — src/linearbot/commands/sync_labels.py (plan phase)
  * `executePlan` and its helpers         — src/linearbot/commands/sync_labels.py (execute phase)
  * `webhook`                             — src/linearbot/webhook.py, LinearWebhook.webhook
  * `handle_webhook` / `processEvent`     — src/linearbot/webhook.py, LinearWebhook.handle_webhook
  * `requestLoop` / `requestStep`         — src/linearbot/api/client.py, LinearClient.request
  * `is_retriable`                        — src/linearbot/api/client.py, LinearClient._is_retriable

Modelling conventions: UUIDs and timestamps are `Nat` (timestamps compare with `<`
exactly as `datetime` values do); Python dicts are association lists in insertion
order (`alGet` = first-match lookup, `alSet` = in-place overwrite-or-append,
matching CPython dict semantics); Python sets of UUIDs are `List Nat` with
membership-guarded insertion; async functions become pure state-passing
functions, and the sequence of GraphQL responses seen by the retry loop is an
explicit list.
-/

namespace LinearMaubot

/-! ### Association lists (Python `dict` in insertion order) -/

/-- Lookup of the first entry with the given key (`d[k]` / `d.get(k)`). -/
def alGet {α β : Type} [DecidableEq α] : List (α × β) → α → Option β
  | [], _ => none
  | (k, v) :: rest, k' => if k = k' then some v else alGet rest k'

/-- Overwrite-or-append (`d[k] = v`): replaces the value at an existing key in
place, otherwise appends a new entry, like a CPython dict assignment. -/
def alSet {α β : Type} [DecidableEq α] : List (α × β) → α → β → List (α × β)
  | [], k, v => [(k, v)]
  | (k', v') :: rest, k, v =>
    if k' = k then (k', v) :: rest else (k', v') :: alSet rest k v

/-- Apply a function to the value stored at a key, if present. -/
def alModify {α β : Type} [DecidableEq α] : List (α × β) → α → (β → β) → List (α × β)
  | [], _, _ => []
  | (k', v') :: rest, k, f =>
    if k' = k then (k', f v') :: rest else (k', v') :: alModify rest k f

/-! ### Data model (src/linearbot/api/types.py) -/

/-- MinimalTeam: id and human-readable name. -/
structure MinimalTeam where
  id : Nat
  name : String
deriving DecidableEq

/-- Label (src/linearbot/api/types.py): id, name, color, description, owning
team, creation/update timestamps. -/
structure Label where
  id : Nat
  name : String
  color : String
  description : String
  team : MinimalTeam
  created_at : Nat
  updated_at : Nat
deriving DecidableEq

/-- Label.meta_equals: name, color and description must all match;
`updated_at` is excluded from the comparison. -/
def Label.meta_equals (self other : Label) : Bool :=
  self.name == other.name && self.color == other.color
    && self.description == other.description

/-- One team's labels keyed by name (`Dict[str, Label]`). -/
abbrev LabelMap := List (String × Label)

/-- The snapshot returned by `get_all_labels`: `Dict[UUID, Dict[str, Label]]`. -/
abbrev Snapshot := List (Nat × LabelMap)

/-- Per-team name-keyed label changes (`LabelChanges = Dict[UUID, Dict[str, Label]]`). -/
abbrev LabelChanges := List (Nat × LabelMap)

/-! ### Reconciliation plan computation
(src/linearbot/commands/sync_labels.py, CommandSyncLabels.sync_labels lines 55-74) -/

/-- The two accumulators `create_labels` and `update_labels` of `sync_labels`. -/
structure PlanState where
  create_labels : LabelChanges
  update_labels : LabelChanges
deriving DecidableEq

/-- `{team_id: {} for team_id in teams.keys()}`. -/
def plansInit (teams : Snapshot) : LabelChanges :=
  teams.map (fun e => (e.1, ([] : LabelMap)))

/-- `plans[team_id][name] = label` (outer key always pre-initialized by `plansInit`). -/
def setIn (plans : LabelChanges) (team_id : Nat) (name : String) (l : Label) :
    LabelChanges :=
  alModify plans team_id (fun m => alSet m name l)

/-- `plans[team_id].get(name)`. -/
def getIn (plans : LabelChanges) (team_id : Nat) (name : String) : Option Label :=
  (alGet plans team_id).bind (fun m => alGet m name)

/-- The body of the innermost loop of `sync_labels`: one source `label` checked
against one target team `other = (other_team_id, other_team_labels)`. -/
def teamStep (label : Label) (st : PlanState) (other : Nat × LabelMap) : PlanState :=
  match alGet other.2 label.name with
  | none =>
    let ok := match getIn st.create_labels other.1 label.name with
      | none => true
      | some existing_create => decide (existing_create.updated_at < label.updated_at)
    if ok then
      { st with create_labels := setIn st.create_labels other.1 label.name label }
    else st
  | some existing_label =>
    let ok := !(existing_label.meta_equals label)
      && decide (existing_label.updated_at < label.updated_at)
      && (match getIn st.update_labels other.1 label.name with
          | none => true
          | some existing_update => decide (existing_update.updated_at < label.updated_at))
    if ok then
      { st with update_labels := setIn st.update_labels other.1 label.name label }
    else st

/-- `for other_team_id, other_team_labels in teams.items(): ...` for one label. -/
def labelStep (teams : Snapshot) (st : PlanState) (label : Label) : PlanState :=
  teams.foldl (teamStep label) st

/-- All labels of the snapshot in iteration order
(`for team_labels in teams.values(): for label in team_labels.values()`). -/
def allLabels : Snapshot → List Label
  | [] => []
  | e :: rest => e.2.map Prod.snd ++ allLabels rest

/-- The plan-computation phase of `sync_labels`: starting from empty per-team
maps, fold every label of every team against every team. -/
def syncPlan (teams : Snapshot) : PlanState :=
  (allLabels teams).foldl (labelStep teams)
    ⟨plansInit teams, plansInit teams⟩

/-! ### Plan execution trace
(src/linearbot/commands/sync_labels.py, lines 98-116) -/

/-- Observable side effects of plan execution, in program order: `register i` is
`ignore_uuids.add(i)` (EventSuppressionLedger registration), `create_call` /
`update_call` are the remote mutations, `index_put` is `labels.put` (the
LocalLabelIndex write). -/
inductive ExecAction where
  | register (label_id : Nat)
  | create_call (team_id : Nat) (name : String) (label_id : Nat)
  | update_call (label_id : Nat) (name : String)
  | index_put (team_id : Nat) (name : String) (label_id : Nat)
deriving DecidableEq

/-- Flatten a per-team plan into `(team_id, key, label)` items in iteration
order (`for team_id, labels in plan.items(): for label in labels.values()`). -/
def flattenPlan : LabelChanges → List (Nat × String × Label)
  | [] => []
  | e :: rest => e.2.map (fun p => (e.1, p.1, p.2)) ++ flattenPlan rest

/-- The create loop: for each item, `new_label_id = uuid4()` (modelled by the
oracle `fresh` applied to a running counter `i0`), then
`ignore_uuids.add(new_label_id)`, then `client.create_label(team_id,
name=label.name, ...)`, then `labels.put(team_id, label.name, new_label_id)`. -/
def createActions (fresh : Nat → Nat) (i0 : Nat) :
    List (Nat × String × Label) → List ExecAction
  | [] => []
  | (team_id, _, label) :: rest =>
    ExecAction.register (fresh i0)
      :: ExecAction.create_call team_id label.name (fresh i0)
      :: ExecAction.index_put team_id label.name (fresh i0)
      :: createActions fresh (i0 + 1) rest

/-- The update loop: for each item, `old_label = teams[team_id][label.name]`,
then `ignore_uuids.add(old_label.id)`, then `client.update_label(old_label.id,
name=label.name, ...)`. A missing snapshot entry would raise `KeyError` in the
source; it is modelled as producing no actions. -/
def updateActions (teams : Snapshot) : List (Nat × String × Label) → List ExecAction
  | [] => []
  | (team_id, _, label) :: rest =>
    (match (alGet teams team_id).bind (fun m => alGet m label.name) with
     | some old_label =>
        [ExecAction.register old_label.id, ExecAction.update_call old_label.id label.name]
     | none => []) ++ updateActions teams rest

/-- The execution phase of `sync_labels`: all creates (across all teams), then
all updates. -/
def executePlan (fresh : Nat → Nat) (teams : Snapshot) (st : PlanState) :
    List ExecAction :=
  createActions fresh 0 (flattenPlan st.create_labels)
    ++ updateActions teams (flattenPlan st.update_labels)

/-- Checker: no `create_call` occurs after any `update_call` in the trace. -/
def hasCreate (l : List ExecAction) : Bool :=
  l.any (fun a => match a with | ExecAction.create_call _ _ _ => true | _ => false)

/-- Checker: every `update_call` is followed only by actions that are not
`create_call`, i.e. every create precedes every update. -/
def createsFirst : List ExecAction → Bool
  | [] => true
  | ExecAction.update_call _ _ :: rest => !hasCreate rest && createsFirst rest
  | _ :: rest => createsFirst rest

/-- Checker: walking the trace with the set `regs` of identifiers registered so
far, every remote mutation call carries an identifier already registered with
the suppression ledger. -/
def registeredBefore (regs : List Nat) : List ExecAction → Bool
  | [] => true
  | ExecAction.register i :: rest => registeredBefore (i :: regs) rest
  | ExecAction.create_call _ _ i :: rest => decide (i ∈ regs) && registeredBefore regs rest
  | ExecAction.update_call i _ :: rest => decide (i ∈ regs) && registeredBefore regs rest
  | ExecAction.index_put _ _ _ :: rest => registeredBefore regs rest

/-- Checker: every `create_call` is later followed by an `index_put` of the same
(team, name, identifier). -/
def createsIndexed : List ExecAction → Bool
  | [] => true
  | ExecAction.create_call t n i :: rest =>
    decide (ExecAction.index_put t n i ∈ rest) && createsIndexed rest
  | _ :: rest => createsIndexed rest

/-! ### Applying a plan to a snapshot

`applyPlan` is NOT part of the source: claim C7 speaks of applying the computed
plan back to the snapshot and recomputing. Modelled from the claim's words:
creates add the sourced label to the target team; updates overwrite the target
label's name/color/description with the source's and stamp a fresh newest
`updated_at`. -/

/-- Modelled from the spec (claim C7): the effect of one executed update on the
target label — name/color/description are overwritten from the source label,
`updated_at` becomes the fresh timestamp. -/
def applyLabelUpdate (src : Label) (fresh : Nat) (old : Label) : Label :=
  { old with name := src.name, color := src.color,
             description := src.description, updated_at := fresh }

/-- Modelled from the spec (claim C7): apply one team's planned creates and
updates to that team's label map. -/
def applyToTeam (st : PlanState) (fresh : Nat) (e : Nat × LabelMap) : Nat × LabelMap :=
  let creates := (alGet st.create_labels e.1).getD []
  let updates := (alGet st.update_labels e.1).getD []
  let m1 := creates.foldl (fun m p => alSet m p.1 p.2) e.2
  let m2 := updates.foldl (fun m p => alModify m p.1 (applyLabelUpdate p.2 fresh)) m1
  (e.1, m2)

/-- Modelled from the spec (claim C7): apply a whole plan to a snapshot. -/
def applyPlan (st : PlanState) (fresh : Nat) (teams : Snapshot) : Snapshot :=
  teams.map (applyToTeam st fresh)

/-! ### Well-formedness of snapshots (invariants of `get_all_labels`:
name-keyed maps with unique keys) -/

/-- Each entry of a team's label map stores the label under its own name. -/
def NameKeyed (m : LabelMap) : Prop := ∀ p ∈ m, (p.2 : Label).name = p.1

/-- Snapshot well-formedness: outer team keys are unique, inner name keys are
unique, and every label is stored under its own name. -/
def SnapshotWF (teams : Snapshot) : Prop :=
  (teams.map Prod.fst).Nodup
    ∧ (∀ e ∈ teams, ((e.2 : LabelMap).map Prod.fst).Nodup)
    ∧ (∀ e ∈ teams, NameKeyed e.2)

/-! ### GraphQL request retry loop
(src/linearbot/api/client.py, LinearClient.request and _is_retriable) -/

/-- One error object of the `errors` array; `code` models
`error["extensions"]["code"]`, `none` when either key is absent. -/
structure GqlError where
  code : Option String
deriving DecidableEq

/-- One GraphQL HTTP response body: optional `errors` array, optional `data`. -/
structure GqlResponse where
  errors : Option (List GqlError)
  data : Option Nat
deriving DecidableEq

/-- LinearClient._is_retriable: `errors[0]["extensions"]["code"] ==
"INTERNAL_SERVER_ERROR"`, with `KeyError`/`IndexError` giving `False`. -/
def is_retriable : List GqlError → Bool
  | [] => false
  | e :: _ => e.code == some "INTERNAL_SERVER_ERROR"

/-- Possible results of one `request` call. -/
inductive RequestOutcome where
  | success (d : Nat)
  | graphql_error (e : GqlError)
  | no_data
deriving DecidableEq

/-- One iteration of the `while True` loop of `LinearClient.request` on the
response `r`: `none` means `continue` (retry), `some` means the loop exits with
the given outcome (returned data or raised error). Note the source never
decrements `retry_count`. -/
def requestStep (retry_count : Nat) (r : GqlResponse) : Option RequestOutcome :=
  match r.errors with
  | some errors =>
    if retry_count > 0 && is_retriable errors then none
    else match errors with
      | e :: _ => some (RequestOutcome.graphql_error e)
      | [] =>
        match r.data with
        | some d => some (RequestOutcome.success d)
        | none => some RequestOutcome.no_data
  | none =>
    match r.data with
    | some d => some (RequestOutcome.success d)
    | none => some RequestOutcome.no_data

/-- The `while True` loop of `LinearClient.request`, run against the (finite
prefix of the) sequence of responses the server produces; `none` means the
loop is still running after consuming every listed response. -/
def requestLoop (retry_count : Nat) : List GqlResponse → Option RequestOutcome
  | [] => none
  | r :: rest =>
    match requestStep retry_count r with
    | some out => some out
    | none => requestLoop retry_count rest

/-- A response whose single error carries the transient-error sentinel code. -/
def transientResponse : GqlResponse :=
  ⟨some [⟨some "INTERNAL_SERVER_ERROR"⟩], none⟩

/-! ### Webhook events (src/linearbot/api/types.py, LinearEvent) -/

/-- EventAction (types.py). -/
inductive EventAction where
  | CREATE | UPDATE | REMOVE | RESTORE
deriving DecidableEq

/-- LinearEventType (types.py). -/
inductive LinearEventType where
  | ISSUE | REACTION | COMMENT | PROJECT | ISSUE_LABEL | ATTACHMENT
deriving DecidableEq

/-- The fields of `evt.data` that `handle_webhook` reads, flattened across the
event-data union (`Issue | Comment | Reaction | LabelEvent | Attachment`):
`id` (every variant), `team_id` and `name` (LabelEvent; read only on
ISSUE_LABEL events), and the optional `issue_id` (`getattr(evt.data,
'issue_id', None)`). -/
structure EventData where
  id : Nat
  team_id : Nat
  name : String
  issue_id : Option Nat
deriving DecidableEq

/-- LinearEvent: the typed webhook payload. -/
structure LinearEvent where
  action : EventAction
  type : LinearEventType
  data : EventData
deriving DecidableEq

/-- `evt.type.name.lower()`. -/
def typeName : LinearEventType → String
  | LinearEventType.ISSUE => "issue"
  | LinearEventType.REACTION => "reaction"
  | LinearEventType.COMMENT => "comment"
  | LinearEventType.PROJECT => "project"
  | LinearEventType.ISSUE_LABEL => "issue_label"
  | LinearEventType.ATTACHMENT => "attachment"

/-- `evt.action.name.lower()`. -/
def actionName : EventAction → String
  | EventAction.CREATE => "create"
  | EventAction.UPDATE => "update"
  | EventAction.REMOVE => "remove"
  | EventAction.RESTORE => "restore"

/-- `template_name = f"{evt.type.name.lower()}_{evt.action.name.lower()}"`. -/
def templateNameOf (evt : LinearEvent) : String :=
  typeName evt.type ++ "_" ++ actionName evt.action

/-! ### Asynchronous webhook processing
(src/linearbot/webhook.py, LinearWebhook.handle_webhook) -/

/-- The five hard-coded `release_label_ids` UUIDs of webhook.py, as 128-bit
integers. -/
def release_label_ids : List Nat :=
  [0x323bed125ebb45d8b5687bd17be0c5d1,
   0x6bc970b5ef2d48488be8e46717dc1e57,
   0x8994a7257a5443a6943d3eed14fbaef6,
   0x9df0b86a47c1442ca8a344a15549b2b3,
   0xea917b0841ce4aad936098e22db96df6]

/-- Mutable processing state touched by `handle_webhook`: the
EventSuppressionLedger (`ignore_uuids`) and the LocalLabelIndex
(`self.bot.labels`, keyed by (team id, label name)). -/
structure ProcState where
  ignore_uuids : List Nat
  labels : List ((Nat × String) × Nat)
deriving DecidableEq

/-- `LabelManager.put`: overwrite-or-insert into the (team, name) → id index. -/
def labelsPut (labels : List ((Nat × String) × Nat)) (team_id : Nat) (name : String)
    (label_id : Nat) : List ((Nat × String) × Nat) :=
  alSet labels (team_id, name) label_id

/-- External collaborators of `handle_webhook`: `find_template` models
`self.messages[template_name]` (`none` = `TemplateNotFound`); the template's
result models `tpl.render_async(...)` (`none` = empty html or template-invoked
`abort()`, either of which produces no message); `issue_labels` models
`self.bot.linear_bot.get_issue_labels`. -/
structure RenderEnv where
  find_template : String → Option (LinearEvent → Option String)
  issue_labels : Nat → List Nat

/-- The non-suppressed path of `handle_webhook`: put label-creation events into
the LocalLabelIndex, look up and render the template, and send the resulting
message to `room_id` and — when the issue carries a release label — to
`release_room_id`. The returned list is the sequence of (room, html) messages
handed to notification rendering. -/
def processEvent (env : RenderEnv) (room_id release_room_id : Option String)
    (evt : LinearEvent) (st : ProcState) : ProcState × List (String × String) :=
  let st :=
    if evt.type = LinearEventType.ISSUE_LABEL ∧ evt.action = EventAction.CREATE then
      { st with labels := labelsPut st.labels evt.data.team_id evt.data.name evt.data.id }
    else st
  match env.find_template (templateNameOf evt) with
  | none => (st, [])
  | some tpl =>
    match tpl evt with
    | none => (st, [])
    | some html =>
      let msgs := match room_id with | some r => [(r, html)] | none => []
      let msgs := msgs ++
        (match release_room_id with
         | some r =>
           match evt.data.issue_id with
           | some iid =>
             if (env.issue_labels iid).any (fun l => l ∈ release_label_ids) then
               [(r, html)]
             else []
           | none => []
         | none => [])
      (st, msgs)

/-- LinearWebhook.handle_webhook: if the event's primary entity id is in
`ignore_uuids`, remove it and stop; otherwise process the event normally. -/
def handle_webhook (env : RenderEnv) (room_id release_room_id : Option String)
    (evt : LinearEvent) (st : ProcState) : ProcState × List (String × String) :=
  if evt.data.id ∈ st.ignore_uuids then
    ({ st with ignore_uuids := st.ignore_uuids.filter (fun x => x != evt.data.id) }, [])
  else processEvent env room_id release_room_id evt st

/-! ### Webhook HTTP endpoint (src/linearbot/webhook.py, LinearWebhook.webhook) -/

/-- One incoming POST to `/webhooks`. `x_forwarded_for` is the proxy header,
`secret` / `room_id` / `release_room_id` are the query parameters (`none` =
absent), `linear_delivery` is the `Linear-Delivery` header parsed as a UUID
(`none` = missing or not a UUID, which the source treats identically), and
`json_body` is the result of `request.json()` (`none` = `JSONDecodeError`);
`JsonBody.event` is the result of `LinearEvent.deserialize` on that JSON
(`none` = `SerializerError`). -/
structure JsonBody where
  event : Option LinearEvent
deriving DecidableEq

structure WebhookRequest where
  x_forwarded_for : String
  secret : Option String
  room_id : Option String
  release_room_id : Option String
  linear_delivery : Option Nat
  json_body : Option JsonBody
deriving DecidableEq

/-- The source-IP allow-list of `LinearWebhook.webhook`. -/
def allowed_ips : List String := ["35.231.147.226", "35.243.134.228"]

/-- Python `set.add`. -/
def setAdd (s : List Nat) (x : Nat) : List Nat := if x ∈ s then s else x :: s

/-- Result of one call to the endpoint: HTTP status, the dedup set
(`handled_webhooks`) after the call, and the asynchronous task spawned for the
accepted event, if any (`asyncio.create_task(self._try_handle_webhook(...))`). -/
structure WebhookResult where
  status : Nat
  handled_webhooks : List Nat
  spawned : Option (Option String × Option String × LinearEvent)
deriving DecidableEq

/-- Whether a requested room blocks the call: a named room the bot has not
joined. -/
def roomBlocked (joined_rooms : List String) : Option String → Bool
  | some r => decide (r ∉ joined_rooms)
  | none => false

/-- LinearWebhook.webhook (lines 136-197): source-IP check, secret check, the
two room-membership checks, `Linear-Delivery` parsing, JSON body parsing,
dedup-set check and insertion, schema deserialization, and task spawning, each
with its response status. -/
def webhook (secret : String) (joined_rooms : List String)
    (handled_webhooks : List Nat) (req : WebhookRequest) : WebhookResult :=
  if req.x_forwarded_for ∉ allowed_ips then
    ⟨401, handled_webhooks, none⟩
  else if req.secret ≠ some secret then
    ⟨401, handled_webhooks, none⟩
  else if roomBlocked joined_rooms req.room_id then
    ⟨403, handled_webhooks, none⟩
  else if roomBlocked joined_rooms req.release_room_id then
    ⟨403, handled_webhooks, none⟩
  else
    match req.linear_delivery with
    | none => ⟨400, handled_webhooks, none⟩
    | some delivery_id =>
      match req.json_body with
      | none => ⟨406, handled_webhooks, none⟩
      | some body =>
        if delivery_id ∈ handled_webhooks then
          ⟨200, handled_webhooks, none⟩
        else
          let handled' := setAdd handled_webhooks delivery_id
          match body.event with
          | none => ⟨200, handled', none⟩
          | some evt => ⟨202, handled', some (req.room_id, req.release_room_id, evt)⟩

/-- The response-code mapping of claim C1 as amended (written from the amended
claim's words, to be compared with `webhook`): for requests whose named rooms
are all joined — 401 when the source IP is unrecognized or the secret is
missing/incorrect; 400 when the delivery header is missing or malformed; 406
when the body is not parseable JSON (this precedes the duplicate check); 200
when the delivery id was already seen or the payload fails schema validation;
202 otherwise. -/
def claimedStatus (secret : String) (handled_webhooks : List Nat)
    (req : WebhookRequest) : Nat :=
  if req.x_forwarded_for ∉ allowed_ips ∨ req.secret ≠ some secret then 401
  else if req.linear_delivery = none then 400
  else if req.json_body = none then 406
  else if (match req.linear_delivery with
           | some d => decide (d ∈ handled_webhooks)
           | none => false) then 200
  else if req.json_body.bind JsonBody.event = none then 200
  else 202

/-! ### Invariants used in the reconciliation proofs -/

/-- Invariant of the plan fold (claim C6): a name sits in a team's `toCreate`
only when the team's snapshot lacks it, and in `toUpdate` only when the
snapshot has it. -/
def PlanDisjointInv (teams : Snapshot) (st : PlanState) : Prop :=
  ∀ t n m, alGet teams t = some m →
    (getIn st.create_labels t n ≠ none → alGet m n = none)
    ∧ (getIn st.update_labels t n ≠ none → alGet m n ≠ none)

/-- The plan accumulators keep exactly the snapshot's team keys. -/
def OuterSome (teams : Snapshot) (st : PlanState) : Prop :=
  ∀ t, (alGet st.create_labels t).isSome = (alGet teams t).isSome
    ∧ (alGet st.update_labels t).isSome = (alGet teams t).isSome

/-- Every entry of either plan accumulator is an original snapshot entry keyed
by its own label name. -/
def PlanEntriesWF (teams : Snapshot) (st : PlanState) : Prop :=
  ∀ tid mlist, (alGet st.create_labels tid = some mlist
      ∨ alGet st.update_labels tid = some mlist) →
    ∀ p ∈ mlist, (p.2 : Label).name = p.1 ∧ ∃ e ∈ teams, p ∈ e.2

/-! ### Claim C8 (retry budget) -/

/-- C8 (code evaluated at the failing input): the claim says a call with retry
budget `k` performs at most `k` retries and then terminates even when every
response is transient. In the source `retry_count` is never decremented, so for
every positive budget `k` the loop is still running after consuming any number
`n` of transient responses: it never terminates. -/
theorem c8_request_retries_forever (n k : Nat) (hk : 0 < k) :
    requestLoop k (List.replicate n transientResponse) = none := by
  induction n with
  | zero => rfl
  | succ n ih =>
    have hstep : requestStep k transientResponse = none := by
      simp [requestStep, transientResponse, is_retriable, hk]
    simp only [List.replicate, requestLoop, hstep, ih]

/-- Witness for C8's theorem at budget 1 and three transient responses. -/
theorem c8_request_retries_forever_witness :
    0 < 1 ∧ requestLoop 1 (List.replicate 3 transientResponse) = none :=
  ⟨by decide, c8_request_retries_forever 3 1 (by decide)⟩

/-! ### Claim C1 (webhook response codes) -/

/-- C1 counterexample: a delivery passing all authentication and room checks,
carrying a valid delivery identifier but an unparseable JSON body, is answered
with HTTP 406, not the HTTP 400 the claim requires. -/
theorem c1_counterexample :
    (webhook "s" [] []
        ⟨"35.231.147.226", some "s", none, none, some 5, none⟩).status = 406
    ∧ (webhook "s" [] []
        ⟨"35.231.147.226", some "s", none, none, some 5, none⟩).status ≠ 400 := by
  decide

/-- C1 as amended: for every delivery whose named rooms are all joined, the
response status is exactly the mapping `claimedStatus`: 401 for authentication
failure, 400 for a missing/malformed delivery identifier, 406 (not 400) for an
unparseable JSON body — taking precedence over the duplicate check — 200 for an
already-seen identifier or a schema-invalid payload, and 202 for a delivery
accepted for asynchronous processing. -/
theorem c1_response_codes (secret : String) (joined_rooms : List String)
    (handled_webhooks : List Nat) (req : WebhookRequest)
    (h1 : roomBlocked joined_rooms req.room_id = false)
    (h2 : roomBlocked joined_rooms req.release_room_id = false) :
    (webhook secret joined_rooms handled_webhooks req).status
      = claimedStatus secret handled_webhooks req := by
  by_cases hip : req.x_forwarded_for ∈ allowed_ips
  · by_cases hs : req.secret = some secret
    · cases hld : req.linear_delivery with
      | none => simp [webhook, claimedStatus, hip, hs, h1, h2, hld]
      | some d =>
        cases hjb : req.json_body with
        | none => simp [webhook, claimedStatus, hip, hs, h1, h2, hld, hjb]
        | some body =>
          by_cases hdup : d ∈ handled_webhooks
          · simp [webhook, claimedStatus, hip, hs, h1, h2, hld, hjb, hdup]
          · cases hevt : body.event with
            | none => simp [webhook, claimedStatus, hip, hs, h1, h2, hld, hjb, hdup, hevt]
            | some evt => simp [webhook, claimedStatus, hip, hs, h1, h2, hld, hjb, hdup, hevt]
    · simp [webhook, claimedStatus, hip, hs]
  · simp [webhook, claimedStatus, hip]

/-- Witness for C1's amended theorem on a concrete accepted delivery. -/
theorem c1_response_codes_witness :
    roomBlocked [] (none : Option String) = false
    ∧ (webhook "s" [] []
        ⟨"35.231.147.226", some "s", none, none, some 5, some ⟨none⟩⟩).status
      = claimedStatus "s" []
        ⟨"35.231.147.226", some "s", none, none, some 5, some ⟨none⟩⟩ :=
  ⟨rfl, c1_response_codes "s" [] [] _ rfl rfl⟩

/-! ### Claim C10 (403 for unjoined rooms) -/

/-- C10: a request that passes the source-IP and secret checks but names a room
(`room_id` or `release_room_id`) the bot has not joined is answered with HTTP
403 before the delivery identifier is read: the dedup set is returned unchanged
and no task is spawned, whatever the rest of the request contains. -/
theorem c10_unjoined_room_forbidden (secret : String) (joined_rooms : List String)
    (handled_webhooks : List Nat) (req : WebhookRequest)
    (hip : req.x_forwarded_for ∈ allowed_ips)
    (hs : req.secret = some secret)
    (hroom : roomBlocked joined_rooms req.room_id = true
      ∨ roomBlocked joined_rooms req.release_room_id = true) :
    webhook secret joined_rooms handled_webhooks req = ⟨403, handled_webhooks, none⟩ := by
  rcases hroom with h | h
  · simp [webhook, hip, hs, h]
  · by_cases h1 : roomBlocked joined_rooms req.room_id <;> simp [webhook, hip, hs, h, h1]

/-- Witness for C10 on a concrete request naming an unjoined room. -/
theorem c10_unjoined_room_forbidden_witness :
    ("35.231.147.226" ∈ allowed_ips)
    ∧ (some "s" : Option String) = some "s"
    ∧ (roomBlocked [] (some "!room:example.com") = true
        ∨ roomBlocked [] (none : Option String) = true)
    ∧ webhook "s" [] [7]
        ⟨"35.231.147.226", some "s", some "!room:example.com", none, some 5, some ⟨none⟩⟩
      = ⟨403, [7], none⟩ :=
  ⟨by decide, rfl, Or.inl (by decide),
    c10_unjoined_room_forbidden "s" [] [7] _ (by decide) rfl (Or.inl (by decide))⟩

/-! ### Claim C2 (dedup insertion point) -/

/-- C2 counterexample: the claim says the delivery identifier is inserted into
the dedup set before the raw payload is parsed, so a malformed-body delivery
followed by a corrected-body delivery with the same identifier is treated as a
duplicate. In the source, `request.json()` runs before the dedup check: the
malformed delivery leaves the dedup set empty, and the corrected retry is
accepted (202) and processed, not treated as a duplicate. -/
theorem c2_counterexample :
    (webhook "s" [] []
        ⟨"35.231.147.226", some "s", none, none, some 5, none⟩).handled_webhooks = []
    ∧ (webhook "s" []
        (webhook "s" [] []
          ⟨"35.231.147.226", some "s", none, none, some 5, none⟩).handled_webhooks
        ⟨"35.231.147.226", some "s", none, none, some 5,
          some ⟨some ⟨EventAction.CREATE, LinearEventType.ISSUE, ⟨1, 1, "n", none⟩⟩⟩⟩).status
      = 202 := by
  decide

/-- C2 as amended: the delivery identifier is inserted into the dedup set after
the body has been parsed as JSON but before schema validation and before any
asynchronous work; consequently a delivery whose body fails JSON parsing leaves
the dedup set untouched, while any JSON-parseable delivery (schema-valid or
not) inserts its identifier, and a later JSON-parseable delivery with the same
identifier is answered 200 as a duplicate with no further processing. -/
theorem c2_dedup_insert_after_json_parse (secret : String)
    (joined_rooms : List String) (handled : List Nat)
    (req1 req2 : WebhookRequest) (d : Nat) (b1 b2 : JsonBody)
    (hip1 : req1.x_forwarded_for ∈ allowed_ips) (hs1 : req1.secret = some secret)
    (hr1 : roomBlocked joined_rooms req1.room_id = false)
    (hrr1 : roomBlocked joined_rooms req1.release_room_id = false)
    (hd1 : req1.linear_delivery = some d) (hfresh : d ∉ handled)
    (hb1 : req1.json_body = some b1)
    (hip2 : req2.x_forwarded_for ∈ allowed_ips) (hs2 : req2.secret = some secret)
    (hr2 : roomBlocked joined_rooms req2.room_id = false)
    (hrr2 : roomBlocked joined_rooms req2.release_room_id = false)
    (hd2 : req2.linear_delivery = some d)
    (hb2 : req2.json_body = some b2) :
    (webhook secret joined_rooms handled req1).handled_webhooks = d :: handled
    ∧ webhook secret joined_rooms
        (webhook secret joined_rooms handled req1).handled_webhooks req2
      = ⟨200, d :: handled, none⟩ := by
  have h1 : (webhook secret joined_rooms handled req1).handled_webhooks = d :: handled := by
    cases he : b1.event with
    | none => simp [webhook, hip1, hs1, hr1, hrr1, hd1, hb1, hfresh, he, setAdd]
    | some evt => simp [webhook, hip1, hs1, hr1, hrr1, hd1, hb1, hfresh, he, setAdd]
  refine ⟨h1, ?_⟩
  rw [h1]
  simp [webhook, hip2, hs2, hr2, hrr2, hd2, hb2]

/-- Witness for C2's amended theorem: a schema-invalid first delivery still
inserts the identifier, and an identical-id retry is answered 200. -/
theorem c2_dedup_insert_after_json_parse_witness :
    ("35.231.147.226" ∈ allowed_ips) ∧ (5 ∉ ([] : List Nat))
    ∧ (webhook "s" [] []
        ⟨"35.231.147.226", some "s", none, none, some 5, some ⟨none⟩⟩).handled_webhooks
      = [5]
    ∧ webhook "s" []
        (webhook "s" [] []
          ⟨"35.231.147.226", some "s", none, none, some 5, some ⟨none⟩⟩).handled_webhooks
        ⟨"35.231.147.226", some "s", none, none, some 5,
          some ⟨some ⟨EventAction.CREATE, LinearEventType.ISSUE, ⟨1, 1, "n", none⟩⟩⟩⟩
      = ⟨200, [5], none⟩ :=
  ⟨by decide, by decide,
    c2_dedup_insert_after_json_parse "s" [] [] _ _ 5 ⟨none⟩
      ⟨some ⟨EventAction.CREATE, LinearEventType.ISSUE, ⟨1, 1, "n", none⟩⟩⟩
      (by decide) rfl rfl rfl rfl (by decide) rfl (by decide) rfl rfl rfl rfl rfl⟩

/-! ### Claim C3 (duplicate delivery handled once) -/

/-- C3: two sequential identical deliveries with a fresh valid identifier and a
valid payload: the first is answered 202 and spawns exactly one processing
task, the second is answered 200 as a duplicate, spawns nothing, and leaves the
dedup set unchanged — downstream processing happens at most once. -/
theorem c3_duplicate_delivery_processed_once (secret : String)
    (joined_rooms : List String) (handled : List Nat) (req : WebhookRequest)
    (d : Nat) (b : JsonBody) (evt : LinearEvent)
    (hip : req.x_forwarded_for ∈ allowed_ips) (hs : req.secret = some secret)
    (hr : roomBlocked joined_rooms req.room_id = false)
    (hrr : roomBlocked joined_rooms req.release_room_id = false)
    (hd : req.linear_delivery = some d) (hfresh : d ∉ handled)
    (hb : req.json_body = some b) (hevt : b.event = some evt) :
    webhook secret joined_rooms handled req
      = ⟨202, d :: handled, some (req.room_id, req.release_room_id, evt)⟩
    ∧ webhook secret joined_rooms (d :: handled) req = ⟨200, d :: handled, none⟩ := by
  constructor
  · simp [webhook, hip, hs, hr, hrr, hd, hb, hevt, hfresh, setAdd]
  · simp [webhook, hip, hs, hr, hrr, hd, hb]

/-- Witness for C3 on a concrete delivery. -/
theorem c3_duplicate_delivery_processed_once_witness :
    ("35.231.147.226" ∈ allowed_ips) ∧ (5 ∉ ([] : List Nat))
    ∧ webhook "s" [] []
        ⟨"35.231.147.226", some "s", none, none, some 5,
          some ⟨some ⟨EventAction.CREATE, LinearEventType.ISSUE, ⟨1, 1, "n", none⟩⟩⟩⟩
      = ⟨202, [5], some (none, none, ⟨EventAction.CREATE, LinearEventType.ISSUE, ⟨1, 1, "n", none⟩⟩)⟩
    ∧ webhook "s" [] [5]
        ⟨"35.231.147.226", some "s", none, none, some 5,
          some ⟨some ⟨EventAction.CREATE, LinearEventType.ISSUE, ⟨1, 1, "n", none⟩⟩⟩⟩
      = ⟨200, [5], none⟩ := by
  refine ⟨by decide, by decide, ?_⟩
  exact c3_duplicate_delivery_processed_once "s" [] [] _ 5
    ⟨some ⟨EventAction.CREATE, LinearEventType.ISSUE, ⟨1, 1, "n", none⟩⟩⟩
    ⟨EventAction.CREATE, LinearEventType.ISSUE, ⟨1, 1, "n", none⟩⟩
    (by decide) rfl rfl rfl rfl (by decide) rfl rfl

/-! ### Claim C4 (self-loop suppression, consume-once) -/

/-- C4: when an event's primary entity identifier is registered in the
suppression ledger, asynchronous processing removes the identifier and stops:
nothing is rendered and the label index is untouched; a subsequent event
carrying the same identifier is processed normally (consume-once). -/
theorem c4_suppression_consume_once (env : RenderEnv)
    (room_id release_room_id : Option String) (evt evt2 : LinearEvent)
    (st : ProcState)
    (hin : evt.data.id ∈ st.ignore_uuids)
    (hsame : evt2.data.id = evt.data.id) :
    (handle_webhook env room_id release_room_id evt st).2 = []
    ∧ (handle_webhook env room_id release_room_id evt st).1.labels = st.labels
    ∧ evt.data.id ∉ (handle_webhook env room_id release_room_id evt st).1.ignore_uuids
    ∧ handle_webhook env room_id release_room_id evt2
        (handle_webhook env room_id release_room_id evt st).1
      = processEvent env room_id release_room_id evt2
        (handle_webhook env room_id release_room_id evt st).1 := by
  have hres : handle_webhook env room_id release_room_id evt st
      = ({ st with ignore_uuids := st.ignore_uuids.filter (fun x => x != evt.data.id) }, []) := by
    simp [handle_webhook, hin]
  rw [hres]
  refine ⟨rfl, rfl, ?_, ?_⟩
  · simp [List.mem_filter]
  · rw [handle_webhook, if_neg]
    simp [List.mem_filter, hsame]

/-- Witness for C4 on a concrete suppressed event. -/
theorem c4_suppression_consume_once_witness :
    (5 ∈ [5]) ∧ (5 = 5)
    ∧ ((handle_webhook ⟨fun _ => none, fun _ => []⟩ none none
          ⟨EventAction.CREATE, LinearEventType.ISSUE_LABEL, ⟨5, 1, "n", none⟩⟩
          ⟨[5], []⟩).2 = []
      ∧ (handle_webhook ⟨fun _ => none, fun _ => []⟩ none none
          ⟨EventAction.CREATE, LinearEventType.ISSUE_LABEL, ⟨5, 1, "n", none⟩⟩
          ⟨[5], []⟩).1.labels = ([] : List ((Nat × String) × Nat))
      ∧ 5 ∉ (handle_webhook ⟨fun _ => none, fun _ => []⟩ none none
          ⟨EventAction.CREATE, LinearEventType.ISSUE_LABEL, ⟨5, 1, "n", none⟩⟩
          ⟨[5], []⟩).1.ignore_uuids
      ∧ handle_webhook ⟨fun _ => none, fun _ => []⟩ none none
          ⟨EventAction.CREATE, LinearEventType.ISSUE_LABEL, ⟨5, 1, "n", none⟩⟩
          ((handle_webhook ⟨fun _ => none, fun _ => []⟩ none none
            ⟨EventAction.CREATE, LinearEventType.ISSUE_LABEL, ⟨5, 1, "n", none⟩⟩
            ⟨[5], []⟩).1)
        = processEvent ⟨fun _ => none, fun _ => []⟩ none none
          ⟨EventAction.CREATE, LinearEventType.ISSUE_LABEL, ⟨5, 1, "n", none⟩⟩
          ((handle_webhook ⟨fun _ => none, fun _ => []⟩ none none
            ⟨EventAction.CREATE, LinearEventType.ISSUE_LABEL, ⟨5, 1, "n", none⟩⟩
            ⟨[5], []⟩).1)) :=
  ⟨by decide, rfl,
    c4_suppression_consume_once ⟨fun _ => none, fun _ => []⟩ none none
      ⟨EventAction.CREATE, LinearEventType.ISSUE_LABEL, ⟨5, 1, "n", none⟩⟩
      ⟨EventAction.CREATE, LinearEventType.ISSUE_LABEL, ⟨5, 1, "n", none⟩⟩
      ⟨[5], []⟩ (by decide) rfl⟩

/-! ### Association-list lemmas -/

theorem alGet_alSet_self {α β : Type} [DecidableEq α] (m : List (α × β)) (k : α) (v : β) :
    alGet (alSet m k v) k = some v := by
  induction m with
  | nil => simp [alSet, alGet]
  | cons p rest ih =>
    obtain ⟨k', v'⟩ := p
    by_cases h : k' = k
    · subst h
      simp [alSet, alGet]
    · simp [alSet, alGet, h, ih]

theorem alGet_alSet_ne {α β : Type} [DecidableEq α] (m : List (α × β)) (k : α) (v : β)
    (k' : α) (h : k' ≠ k) : alGet (alSet m k v) k' = alGet m k' := by
  induction m with
  | nil => simp [alSet, alGet, Ne.symm h]
  | cons p rest ih =>
    obtain ⟨k₁, v₁⟩ := p
    by_cases h1 : k₁ = k
    · subst h1
      simp [alSet, alGet, Ne.symm h]
    · simp [alSet, alGet, h1, ih]

theorem alGet_alModify_self {α β : Type} [DecidableEq α] (m : List (α × β)) (k : α)
    (f : β → β) : alGet (alModify m k f) k = (alGet m k).map f := by
  induction m with
  | nil => simp [alModify, alGet]
  | cons p rest ih =>
    obtain ⟨k₁, v₁⟩ := p
    by_cases h1 : k₁ = k
    · subst h1
      simp [alModify, alGet]
    · simp [alModify, alGet, h1, ih]

theorem alGet_alModify_ne {α β : Type} [DecidableEq α] (m : List (α × β)) (k : α)
    (f : β → β) (k' : α) (h : k' ≠ k) : alGet (alModify m k f) k' = alGet m k' := by
  induction m with
  | nil => simp [alModify, alGet]
  | cons p rest ih =>
    obtain ⟨k₁, v₁⟩ := p
    by_cases h1 : k₁ = k
    · subst h1
      simp [alModify, alGet, Ne.symm h]
    · simp [alModify, alGet, h1, ih]

theorem alGet_eq_some_of_mem {α β : Type} [DecidableEq α] {m : List (α × β)}
    (hnd : (m.map Prod.fst).Nodup) {k : α} {v : β} (h : (k, v) ∈ m) :
    alGet m k = some v := by
  induction m with
  | nil => cases h
  | cons p rest ih =>
    obtain ⟨k₁, v₁⟩ := p
    rcases List.mem_cons.mp h with h | h
    · injection h with h1 h2
      subst h1
      subst h2
      simp [alGet]
    · have hk : k₁ ≠ k := by
        intro hk
        subst hk
        exact (List.nodup_cons.mp hnd).1 (List.mem_map.mpr ⟨(k₁, v), h, rfl⟩)
      simp only [alGet, hk, if_false]
      exact ih (List.nodup_cons.mp hnd).2 h

theorem mem_of_alGet_eq_some {α β : Type} [DecidableEq α] {m : List (α × β)}
    {k : α} {v : β} (h : alGet m k = some v) : (k, v) ∈ m := by
  induction m with
  | nil => simp [alGet] at h
  | cons p rest ih =>
    obtain ⟨k₁, v₁⟩ := p
    by_cases h1 : k₁ = k
    · subst h1
      simp [alGet] at h
      subst h
      exact List.mem_cons_self _ _
    · simp only [alGet, h1, if_false] at h
      exact List.mem_cons_of_mem _ (ih h)

theorem mem_alSet {α β : Type} [DecidableEq α] {m : List (α × β)} {k : α} {v : β}
    {p : α × β} (h : p ∈ alSet m k v) : p ∈ m ∨ p = (k, v) := by
  induction m with
  | nil =>
    simp [alSet] at h
    exact Or.inr h
  | cons q rest ih =>
    obtain ⟨k₁, v₁⟩ := q
    by_cases h1 : k₁ = k
    · subst h1
      simp only [alSet, if_pos rfl] at h
      rcases List.mem_cons.mp h with h | h
      · exact Or.inr (by rw [h])
      · exact Or.inl (List.mem_cons_of_mem _ h)
    · simp only [alSet, if_neg h1] at h
      rcases List.mem_cons.mp h with h | h
      · exact Or.inl (h ▸ List.mem_cons_self _ _)
      · rcases ih h with h | h
        · exact Or.inl (List.mem_cons_of_mem _ h)
        · exact Or.inr h

theorem mem_alModify {α β : Type} [DecidableEq α] {m : List (α × β)} {k : α}
    {f : β → β} {p : α × β} (h : p ∈ alModify m k f) :
    p ∈ m ∨ ∃ v, (k, v) ∈ m ∧ p = (k, f v) := by
  induction m with
  | nil => simp [alModify] at h
  | cons q rest ih =>
    obtain ⟨k₁, v₁⟩ := q
    by_cases h1 : k₁ = k
    · subst h1
      simp only [alModify, if_pos rfl] at h
      rcases List.mem_cons.mp h with h | h
      · exact Or.inr ⟨v₁, List.mem_cons_self _ _, h⟩
      · exact Or.inl (List.mem_cons_of_mem _ h)
    · simp only [alModify, if_neg h1] at h
      rcases List.mem_cons.mp h with h | h
      · exact Or.inl (h ▸ List.mem_cons_self _ _)
      · rcases ih h with h | ⟨v, hv, hp⟩
        · exact Or.inl (List.mem_cons_of_mem _ h)
        · exact Or.inr ⟨v, List.mem_cons_of_mem _ hv, hp⟩

theorem keys_alModify {α β : Type} [DecidableEq α] (m : List (α × β)) (k : α)
    (f : β → β) : (alModify m k f).map Prod.fst = m.map Prod.fst := by
  induction m with
  | nil => rfl
  | cons q rest ih =>
    obtain ⟨k₁, v₁⟩ := q
    by_cases h1 : k₁ = k
    · subst h1
      simp [alModify]
    · simp [alModify, h1, ih]

theorem mem_keys_alSet {α β : Type} [DecidableEq α] {m : List (α × β)} {k : α} {v : β}
    {a : α} : a ∈ (alSet m k v).map Prod.fst ↔ a ∈ m.map Prod.fst ∨ a = k := by
  induction m with
  | nil => simp [alSet]
  | cons q rest ih =>
    obtain ⟨k₁, v₁⟩ := q
    by_cases h1 : k₁ = k
    · subst h1
      simp [alSet]
      tauto
    · simp [alSet, h1, ih]
      tauto

theorem nodup_keys_alSet {α β : Type} [DecidableEq α] {m : List (α × β)} (k : α) (v : β)
    (hnd : (m.map Prod.fst).Nodup) : ((alSet m k v).map Prod.fst).Nodup := by
  induction m with
  | nil => simp [alSet]
  | cons q rest ih =>
    obtain ⟨k₁, v₁⟩ := q
    by_cases h1 : k₁ = k
    · subst h1
      simpa [alSet] using hnd
    · rw [List.map_cons, List.nodup_cons] at hnd
      have hcons : alSet ((k₁, v₁) :: rest) k v = (k₁, v₁) :: alSet rest k v := by
        simp [alSet, h1]
      rw [hcons, List.map_cons]
      refine List.nodup_cons.mpr ⟨?_, ih hnd.2⟩
      intro hmem
      rcases mem_keys_alSet.mp hmem with h | h
      · exact hnd.1 h
      · exact h1 h

theorem alGet_isSome_iff {α β : Type} [DecidableEq α] {m : List (α × β)} {k : α} :
    (alGet m k).isSome ↔ k ∈ m.map Prod.fst := by
  induction m with
  | nil => simp [alGet]
  | cons q rest ih =>
    obtain ⟨k₁, v₁⟩ := q
    by_cases h1 : k₁ = k
    · subst h1
      simp [alGet]
    · have h1' : k ≠ k₁ := fun hh => h1 hh.symm
      simp [alGet, h1, h1', ih]

/-! ### Lemmas about `getIn`, `setIn` and `plansInit` -/

theorem getIn_setIn_ne (p : LabelChanges) (t : Nat) (n : String) (v : Label)
    (t' : Nat) (n' : String) (h : t' ≠ t ∨ n' ≠ n) :
    getIn (setIn p t n v) t' n' = getIn p t' n' := by
  rcases h with h | h
  · unfold getIn setIn
    rw [alGet_alModify_ne _ _ _ _ h]
  · by_cases ht : t' = t
    · subst ht
      unfold getIn setIn
      rw [alGet_alModify_self]
      cases hm : alGet p t' with
      | none => rfl
      | some m => simp [alGet_alSet_ne _ _ _ _ h]
    · unfold getIn setIn
      rw [alGet_alModify_ne _ _ _ _ ht]

theorem getIn_setIn_self_of_isSome {p : LabelChanges} {t : Nat} (n : String) (v : Label)
    (hp : (alGet p t).isSome) : getIn (setIn p t n v) t n = some v := by
  obtain ⟨m, hm⟩ := Option.isSome_iff_exists.mp hp
  unfold getIn setIn
  rw [alGet_alModify_self, hm]
  simp [alGet_alSet_self]

theorem getIn_setIn_self_of_none {p : LabelChanges} {t : Nat} (n : String) (v : Label)
    (hp : alGet p t = none) : getIn (setIn p t n v) t n = none := by
  unfold getIn setIn
  rw [alGet_alModify_self, hp]
  rfl

theorem alGet_setIn_isSome (p : LabelChanges) (t : Nat) (n : String) (v : Label)
    (t' : Nat) : (alGet (setIn p t n v) t').isSome = (alGet p t').isSome := by
  by_cases ht : t' = t
  · subst ht
    unfold setIn
    rw [alGet_alModify_self]
    cases alGet p t' <;> rfl
  · unfold setIn
    rw [alGet_alModify_ne _ _ _ _ ht]

theorem alGet_plansInit (teams : Snapshot) (t : Nat) :
    alGet (plansInit teams) t = (alGet teams t).map (fun _ => ([] : LabelMap)) := by
  induction teams with
  | nil => rfl
  | cons e rest ih =>
    obtain ⟨tid, m⟩ := e
    by_cases h : tid = t
    · subst h
      simp [plansInit, alGet]
    · simp [plansInit, alGet, h]
      simpa [plansInit] using ih

theorem getIn_plansInit (teams : Snapshot) (t : Nat) (n : String) :
    getIn (plansInit teams) t n = none := by
  unfold getIn
  rw [alGet_plansInit]
  cases alGet teams t with
  | none => rfl
  | some m => simp [alGet]

/-! ### Fold helpers -/

theorem foldl_induct {σ α : Type} (f : σ → α → σ) (I : σ → Prop) :
    ∀ (l : List α) (s : σ), I s → (∀ s a, a ∈ l → I s → I (f s a)) → I (l.foldl f s) := by
  intro l
  induction l with
  | nil => intro s h _; exact h
  | cons a rest ih =>
    intro s h hstep
    exact ih _ (hstep s a (List.mem_cons_self _ _) h)
      (fun s b hb => hstep s b (List.mem_cons_of_mem _ hb))

theorem foldl_estab {σ α : Type} (f : σ → α → σ) (Q P : σ → Prop) :
    ∀ (l : List α) (x : α), x ∈ l → ∀ (s : σ), Q s →
      (∀ s a, a ∈ l → Q s → Q (f s a)) →
      (∀ s, Q s → P (f s x)) →
      (∀ s a, a ∈ l → P s → P (f s a)) → P (l.foldl f s) := by
  intro l
  induction l with
  | nil => intro x hx; cases hx
  | cons a rest ih =>
    intro x hx s hq hqstep hest hpstep
    rcases List.mem_cons.mp hx with hx | hx
    · subst hx
      exact foldl_induct f P rest (f s x) (hest s hq)
        (fun s b hb => hpstep s b (List.mem_cons_of_mem _ hb))
    · exact ih x hx (f s a) (hqstep s a (List.mem_cons_self _ _) hq)
        (fun s b hb => hqstep s b (List.mem_cons_of_mem _ hb)) hest
        (fun s b hb => hpstep s b (List.mem_cons_of_mem _ hb))

/-! ### Claim C6 (plan invariant) -/

theorem planDisjointInv_step (teams : Snapshot)
    (hnd : (teams.map Prod.fst).Nodup) (l : Label) (st : PlanState)
    (other : Nat × LabelMap) (hother : other ∈ teams)
    (hinv : PlanDisjointInv teams st) :
    PlanDisjointInv teams (teamStep l st other) := by
  obtain ⟨tid, tm⟩ := other
  have htid : alGet teams tid = some tm := alGet_eq_some_of_mem hnd hother
  intro t n m hm
  unfold teamStep
  cases hsnap : alGet tm l.name with
  | none =>
    simp only []
    set ok := (match getIn st.create_labels tid l.name with
      | none => true
      | some existing_create => decide (existing_create.updated_at < l.updated_at)) with hok
    by_cases hokb : ok = true
    · rw [if_pos hokb]
      refine ⟨?_, (hinv t n m hm).2⟩
      intro hne
      by_cases hcase : t = tid ∧ n = l.name
      · obtain ⟨rfl, rfl⟩ := hcase
        rw [hm] at htid
        injection htid with htid
        subst htid
        exact hsnap
      · rw [getIn_setIn_ne _ _ _ _ _ _ (by tauto)] at hne
        exact (hinv t n m hm).1 hne
    · rw [if_neg hokb]
      exact hinv t n m hm
  | some existing_label =>
    simp only []
    set ok := (!(existing_label.meta_equals l)
      && decide (existing_label.updated_at < l.updated_at)
      && (match getIn st.update_labels tid l.name with
          | none => true
          | some existing_update =>
            decide (existing_update.updated_at < l.updated_at))) with hok
    by_cases hokb : ok = true
    · rw [if_pos hokb]
      refine ⟨(hinv t n m hm).1, ?_⟩
      intro hne
      by_cases hcase : t = tid ∧ n = l.name
      · obtain ⟨rfl, rfl⟩ := hcase
        rw [hm] at htid
        injection htid with htid
        subst htid
        rw [hsnap]
        exact fun h => Option.noConfusion h
      · rw [getIn_setIn_ne _ _ _ _ _ _ (by tauto)] at hne
        exact (hinv t n m hm).2 hne
    · rw [if_neg hokb]
      exact hinv t n m hm

theorem planDisjointInv_syncPlan (teams : Snapshot)
    (hnd : (teams.map Prod.fst).Nodup) :
    PlanDisjointInv teams (syncPlan teams) := by
  unfold syncPlan
  apply foldl_induct
  · intro t n m _
    constructor
    · intro hne
      exact absurd (getIn_plansInit teams t n) hne
    · intro hne
      exact absurd (getIn_plansInit teams t n) hne
  · intro st l _ hinv
    unfold labelStep
    apply foldl_induct
    · exact hinv
    · intro st' other hother hinv'
      exact planDisjointInv_step teams hnd l st' other hother hinv'

/-- C6: in the computed reconciliation plan, no name appears in both a team's
`toCreate` and `toUpdate` maps, and a name appears in `toCreate` only if the
team's snapshot holds no label under that name. -/
theorem c6_create_update_disjoint (teams : Snapshot)
    (hnd : (teams.map Prod.fst).Nodup)
    (t : Nat) (n : String) (m : LabelMap) (hm : alGet teams t = some m) :
    ¬(getIn (syncPlan teams).create_labels t n ≠ none
        ∧ getIn (syncPlan teams).update_labels t n ≠ none)
    ∧ (getIn (syncPlan teams).create_labels t n ≠ none → alGet m n = none) := by
  have hinv := planDisjointInv_syncPlan teams hnd t n m hm
  constructor
  · rintro ⟨hc, hu⟩
    exact hinv.2 hu (hinv.1 hc)
  · exact hinv.1

/-- Witness for C6 on the three-team snapshot also used elsewhere: team 1 lacks
label "m", so "m" lands in `toCreate` and not in `toUpdate`. -/
theorem c6_create_update_disjoint_witness :
    (([(1, [("n", (⟨11, "n", "red", "", ⟨1, "A"⟩, 0, 1⟩ : Label))]),
       (2, [("m", (⟨12, "m", "red", "", ⟨2, "B"⟩, 0, 5⟩ : Label))])] : Snapshot).map
        Prod.fst).Nodup
    ∧ alGet ([(1, [("n", (⟨11, "n", "red", "", ⟨1, "A"⟩, 0, 1⟩ : Label))]),
       (2, [("m", (⟨12, "m", "red", "", ⟨2, "B"⟩, 0, 5⟩ : Label))])] : Snapshot) 1
      = some [("n", (⟨11, "n", "red", "", ⟨1, "A"⟩, 0, 1⟩ : Label))]
    ∧ (¬(getIn (syncPlan [(1, [("n", (⟨11, "n", "red", "", ⟨1, "A"⟩, 0, 1⟩ : Label))]),
          (2, [("m", (⟨12, "m", "red", "", ⟨2, "B"⟩, 0, 5⟩ : Label))])]).create_labels 1 "m"
            ≠ none
        ∧ getIn (syncPlan [(1, [("n", (⟨11, "n", "red", "", ⟨1, "A"⟩, 0, 1⟩ : Label))]),
          (2, [("m", (⟨12, "m", "red", "", ⟨2, "B"⟩, 0, 5⟩ : Label))])]).update_labels 1 "m"
            ≠ none)
      ∧ (getIn (syncPlan [(1, [("n", (⟨11, "n", "red", "", ⟨1, "A"⟩, 0, 1⟩ : Label))]),
          (2, [("m", (⟨12, "m", "red", "", ⟨2, "B"⟩, 0, 5⟩ : Label))])]).create_labels 1 "m"
            ≠ none
          → alGet [("n", (⟨11, "n", "red", "", ⟨1, "A"⟩, 0, 1⟩ : Label))] "m" = none)) :=
  ⟨by decide, rfl,
    c6_create_update_disjoint _ (by decide) 1 "m" _ rfl⟩

/-! ### Claim C9 (execution ordering) -/

theorem registeredBefore_mono {regs regs' : List Nat} (hsub : regs ⊆ regs') :
    ∀ {l : List ExecAction}, registeredBefore regs l = true → registeredBefore regs' l = true := by
  intro l
  induction l generalizing regs regs' with
  | nil => intro _; rfl
  | cons a rest ih =>
    intro h
    cases a with
    | register i =>
      simp only [registeredBefore] at h ⊢
      exact ih (List.cons_subset_cons i hsub) h
    | create_call t n i =>
      simp only [registeredBefore, Bool.and_eq_true, decide_eq_true_eq] at h ⊢
      exact ⟨hsub h.1, ih hsub h.2⟩
    | update_call i n =>
      simp only [registeredBefore, Bool.and_eq_true, decide_eq_true_eq] at h ⊢
      exact ⟨hsub h.1, ih hsub h.2⟩
    | index_put t n i =>
      simp only [registeredBefore] at h ⊢
      exact ih hsub h

theorem registeredBefore_updateActions (teams : Snapshot) :
    ∀ (items : List (Nat × String × Label)) (regs : List Nat),
      registeredBefore regs (updateActions teams items) = true := by
  intro items
  induction items with
  | nil => intro regs; rfl
  | cons item rest ih =>
    intro regs
    obtain ⟨team_id, n, label⟩ := item
    cases hold : (alGet teams team_id).bind (fun m => alGet m label.name) with
    | none => simpa [updateActions, hold] using ih regs
    | some old_label =>
      simp only [updateActions, hold, List.cons_append, List.nil_append,
        registeredBefore, Bool.and_eq_true, decide_eq_true_eq]
      exact ⟨List.mem_cons_self _ _, ih _⟩

theorem registeredBefore_createActions (fresh : Nat → Nat) :
    ∀ (items : List (Nat × String × Label)) (i0 : Nat) (regs : List Nat)
      (tail : List ExecAction),
      (∀ regs', registeredBefore regs' tail = true) →
      registeredBefore regs (createActions fresh i0 items ++ tail) = true := by
  intro items
  induction items with
  | nil => intro i0 regs tail htail; simpa [createActions] using htail regs
  | cons item rest ih =>
    intro i0 regs tail htail
    obtain ⟨team_id, n, label⟩ := item
    simp only [createActions, List.cons_append, registeredBefore,
      Bool.and_eq_true, decide_eq_true_eq]
    exact ⟨List.mem_cons_self _ _, ih (i0 + 1) _ tail htail⟩

theorem hasCreate_updateActions (teams : Snapshot) :
    ∀ (items : List (Nat × String × Label)),
      hasCreate (updateActions teams items) = false := by
  intro items
  induction items with
  | nil => rfl
  | cons item rest ih =>
    obtain ⟨team_id, n, label⟩ := item
    cases hold : (alGet teams team_id).bind (fun m => alGet m label.name) with
    | none => simpa [updateActions, hold] using ih
    | some old_label =>
      simp [updateActions, hold, hasCreate] at ih ⊢
      exact ih

theorem createsFirst_updateActions (teams : Snapshot) :
    ∀ (items : List (Nat × String × Label)),
      createsFirst (updateActions teams items) = true := by
  intro items
  induction items with
  | nil => rfl
  | cons item rest ih =>
    obtain ⟨team_id, n, label⟩ := item
    cases hold : (alGet teams team_id).bind (fun m => alGet m label.name) with
    | none => simpa [updateActions, hold] using ih
    | some old_label =>
      simp only [updateActions, hold, List.cons_append, List.nil_append, createsFirst,
        Bool.and_eq_true, Bool.not_eq_true']
      exact ⟨hasCreate_updateActions teams rest, ih⟩

theorem createsFirst_createActions (fresh : Nat → Nat) :
    ∀ (items : List (Nat × String × Label)) (i0 : Nat) (tail : List ExecAction),
      createsFirst (createActions fresh i0 items ++ tail) = createsFirst tail := by
  intro items
  induction items with
  | nil => intro i0 tail; rfl
  | cons item rest ih =>
    intro i0 tail
    obtain ⟨team_id, n, label⟩ := item
    simp only [createActions, List.cons_append, createsFirst]
    exact ih (i0 + 1) tail

theorem createsIndexed_updateActions (teams : Snapshot) :
    ∀ (items : List (Nat × String × Label)),
      createsIndexed (updateActions teams items) = true := by
  intro items
  induction items with
  | nil => rfl
  | cons item rest ih =>
    obtain ⟨team_id, n, label⟩ := item
    cases hold : (alGet teams team_id).bind (fun m => alGet m label.name) with
    | none => simpa [updateActions, hold] using ih
    | some old_label =>
      simpa [updateActions, hold, createsIndexed] using ih

theorem createsIndexed_createActions (fresh : Nat → Nat) :
    ∀ (items : List (Nat × String × Label)) (i0 : Nat) (tail : List ExecAction),
      createsIndexed tail = true →
      createsIndexed (createActions fresh i0 items ++ tail) = true := by
  intro items
  induction items with
  | nil => intro i0 tail htail; simpa [createActions] using htail
  | cons item rest ih =>
    intro i0 tail htail
    obtain ⟨team_id, n, label⟩ := item
    simp only [createActions, List.cons_append, createsIndexed,
      Bool.and_eq_true, decide_eq_true_eq]
    exact ⟨List.mem_cons_self _ _, ih (i0 + 1) tail htail⟩

/-- C9: in every execution trace of a reconciliation plan, every create call
precedes every update call; every remote mutation call (create or update) is
preceded by a suppression-ledger registration of the identifier it carries —
the freshly assigned one for creates, the existing label's for updates — and
every create call is followed by a LocalLabelIndex write of the same (team,
name, identifier). -/
theorem c9_execution_trace_ordered (fresh : Nat → Nat) (teams : Snapshot)
    (st : PlanState) :
    createsFirst (executePlan fresh teams st) = true
    ∧ registeredBefore [] (executePlan fresh teams st) = true
    ∧ createsIndexed (executePlan fresh teams st) = true := by
  unfold executePlan
  refine ⟨?_, ?_, ?_⟩
  · rw [createsFirst_createActions]
    exact createsFirst_updateActions teams _
  · exact registeredBefore_createActions fresh _ 0 []
      (updateActions teams (flattenPlan st.update_labels))
      (registeredBefore_updateActions teams _)
  · exact createsIndexed_createActions fresh _ 0 _
      (createsIndexed_updateActions teams _)

/-! ### Claim C5 (last-writer-wins update direction) -/

theorem meta_equals_iff (a b : Label) :
    a.meta_equals b = true ↔ (a.name = b.name ∧ a.color = b.color
      ∧ a.description = b.description) := by
  simp [Label.meta_equals, Bool.and_eq_true, and_assoc]

theorem meta_equals_self (a : Label) : a.meta_equals a = true := by
  simp [meta_equals_iff]

theorem meta_equals_comm (a b : Label) : a.meta_equals b = b.meta_equals a := by
  cases hab : a.meta_equals b with
  | true =>
    obtain ⟨h1, h2, h3⟩ := (meta_equals_iff a b).mp hab
    rw [(meta_equals_iff b a).mpr ⟨h1.symm, h2.symm, h3.symm⟩]
  | false =>
    cases hba : b.meta_equals a with
    | true =>
      obtain ⟨h1, h2, h3⟩ := (meta_equals_iff b a).mp hba
      rw [(meta_equals_iff a b).mpr ⟨h1.symm, h2.symm, h3.symm⟩] at hab
      cases hab
    | false => rfl

theorem alGet_split {α β : Type} [DecidableEq α] {m : List (α × β)} {k : α} {v : β}
    (hnd : (m.map Prod.fst).Nodup) (h : alGet m k = some v) :
    ∃ a b, m = a ++ (k, v) :: b ∧ (∀ p ∈ a, (p : α × β).1 ≠ k)
      ∧ (∀ p ∈ b, (p : α × β).1 ≠ k) := by
  induction m with
  | nil => simp [alGet] at h
  | cons q rest ih =>
    obtain ⟨k₁, v₁⟩ := q
    rw [List.map_cons, List.nodup_cons] at hnd
    by_cases h1 : k₁ = k
    · subst h1
      simp only [alGet, if_pos rfl] at h
      injection h with h
      subst h
      refine ⟨[], rest, rfl, by simp, ?_⟩
      intro p hp hpk
      exact hnd.1 (hpk ▸ List.mem_map.mpr ⟨p, hp, rfl⟩)
    · simp only [alGet, h1, if_false] at h
      obtain ⟨a, b, heq, ha, hb⟩ := ih hnd.2 h
      exact ⟨(k₁, v₁) :: a, b, by rw [heq]; rfl,
        by intro p hp
           rcases List.mem_cons.mp hp with hp | hp
           · subst hp; exact h1
           · exact ha p hp,
        hb⟩

theorem teamStep_updates_getIn_preserved (l : Label) (st : PlanState)
    (other : Nat × LabelMap) (t : Nat) (n : String) (hname : l.name ≠ n) :
    getIn (teamStep l st other).update_labels t n = getIn st.update_labels t n := by
  unfold teamStep
  cases halg : alGet other.2 l.name with
  | none =>
    simp only []
    split
    · rfl
    · rfl
  | some existing_label =>
    simp only []
    split
    · exact getIn_setIn_ne _ _ _ _ _ _ (Or.inr (Ne.symm hname))
    · rfl

theorem labelStep_updates_getIn_preserved (teams : Snapshot) (l : Label)
    (st : PlanState) (t : Nat) (n : String) (hname : l.name ≠ n) :
    getIn (labelStep teams st l).update_labels t n = getIn st.update_labels t n := by
  unfold labelStep
  apply foldl_induct (teamStep l)
    (fun s => getIn s.update_labels t n = getIn st.update_labels t n)
  · rfl
  · intro s other _ hs
    rw [teamStep_updates_getIn_preserved l s other t n hname]
    exact hs

theorem fold_updates_getIn_preserved (teams : Snapshot) (ls : List Label)
    (st : PlanState) (t : Nat) (n : String) (hname : ∀ l ∈ ls, (l : Label).name ≠ n) :
    getIn ((ls.foldl (labelStep teams) st)).update_labels t n
      = getIn st.update_labels t n := by
  apply foldl_induct (labelStep teams)
    (fun s => getIn s.update_labels t n = getIn st.update_labels t n)
  · rfl
  · intro s l hl hs
    rw [labelStep_updates_getIn_preserved teams l s t n (hname l hl)]
    exact hs

theorem teamStep_updates_outer_isSome (l : Label) (st : PlanState)
    (other : Nat × LabelMap) (t : Nat) :
    (alGet (teamStep l st other).update_labels t).isSome
      = (alGet st.update_labels t).isSome := by
  unfold teamStep
  cases halg : alGet other.2 l.name with
  | none =>
    simp only []
    split
    · rfl
    · rfl
  | some existing_label =>
    simp only []
    split
    · exact alGet_setIn_isSome _ _ _ _ _
    · rfl

theorem fold_updates_outer_isSome (teams : Snapshot) (ls : List Label)
    (st : PlanState) (t : Nat) :
    (alGet ((ls.foldl (labelStep teams) st)).update_labels t).isSome
      = (alGet st.update_labels t).isSome := by
  apply foldl_induct (labelStep teams)
    (fun s => (alGet s.update_labels t).isSome = (alGet st.update_labels t).isSome)
  · rfl
  · intro s l _ hs
    unfold labelStep
    refine foldl_induct (teamStep l)
      (fun s' => (alGet s'.update_labels t).isSome = (alGet st.update_labels t).isSome)
      teams s hs ?_
    intro s' other _ hs'
    rw [teamStep_updates_outer_isSome l s' other t]
    exact hs'

/-- Helper for C5, covering the snapshot that enumerates the older label's
team first. -/
theorem syncPlan_two_teams_older_first (t1 t2 : Nat) (m1 m2 : LabelMap) (l1 l2 : Label)
    (n : String) (hne : t1 ≠ t2)
    (wf1 : NameKeyed m1) (wf2 : NameKeyed m2)
    (nd1 : (m1.map Prod.fst).Nodup) (nd2 : (m2.map Prod.fst).Nodup)
    (h1 : alGet m1 n = some l1) (h2 : alGet m2 n = some l2)
    (hmeta : l1.meta_equals l2 = false)
    (hlt : l1.updated_at < l2.updated_at) :
    getIn (syncPlan [(t1, m1), (t2, m2)]).update_labels t1 n = some l2
    ∧ getIn (syncPlan [(t1, m1), (t2, m2)]).update_labels t2 n = none := by
  set teams : Snapshot := [(t1, m1), (t2, m2)] with hteams
  have hn1 : l1.name = n := wf1 (n, l1) (mem_of_alGet_eq_some h1)
  have hn2 : l2.name = n := wf2 (n, l2) (mem_of_alGet_eq_some h2)
  have hteam1 : alGet teams t1 = some m1 := by simp [hteams, alGet]
  have hteam2 : alGet teams t2 = some m2 := by simp [hteams, alGet, hne]
  -- the two interesting label steps
  have hstep1 : ∀ st, labelStep teams st l1 = st := by
    intro st
    have hg1 : alGet m1 l1.name = some l1 := by rw [hn1]; exact h1
    have hg2 : alGet m2 l1.name = some l2 := by rw [hn1]; exact h2
    have e1 : teamStep l1 st (t1, m1) = st := by
      unfold teamStep
      simp [hg1, meta_equals_self]
    have e2 : teamStep l1 st (t2, m2) = st := by
      unfold teamStep
      simp [hg2, Nat.lt_asymm hlt]
    show List.foldl (teamStep l1) st teams = st
    rw [hteams]
    simp only [List.foldl_cons, List.foldl_nil, e1, e2]
  have hstep2 : ∀ st, getIn st.update_labels t1 n = none →
      (alGet st.update_labels t1).isSome = true →
      getIn (labelStep teams st l2).update_labels t1 n = some l2
      ∧ getIn (labelStep teams st l2).update_labels t2 n
          = getIn st.update_labels t2 n := by
    intro st hnone hsome
    have hg1 : alGet m1 l2.name = some l1 := by rw [hn2]; exact h1
    have hg2 : alGet m2 l2.name = some l2 := by rw [hn2]; exact h2
    have hguard : getIn st.update_labels t1 l2.name = none := by rw [hn2]; exact hnone
    have e1 : teamStep l2 st (t1, m1)
        = { st with update_labels := setIn st.update_labels t1 l2.name l2 } := by
      unfold teamStep
      simp [hg1, hguard, hmeta, hlt]
    have e2 : ∀ st', teamStep l2 st' (t2, m2) = st' := by
      intro st'
      unfold teamStep
      simp [hg2, meta_equals_self]
    have hfold : labelStep teams st l2
        = { st with update_labels := setIn st.update_labels t1 l2.name l2 } := by
      show List.foldl (teamStep l2) st teams = _
      rw [hteams]
      simp only [List.foldl_cons, List.foldl_nil, e1, e2]
    rw [hfold]
    constructor
    · show getIn (setIn st.update_labels t1 l2.name l2) t1 n = some l2
      rw [hn2]
      exact getIn_setIn_self_of_isSome _ _ hsome
    · show getIn (setIn st.update_labels t1 l2.name l2) t2 n
        = getIn st.update_labels t2 n
      exact getIn_setIn_ne _ _ _ _ _ _ (Or.inl (Ne.symm hne))
  -- decompose the label maps around the two labels named n
  obtain ⟨a1, b1, hm1eq, ha1, hb1⟩ := alGet_split nd1 h1
  obtain ⟨a2, b2, hm2eq, ha2, hb2⟩ := alGet_split nd2 h2
  have hnames : ∀ (a : List (String × Label)), (∀ p ∈ a, (p : String × Label).1 ≠ n) →
      (∀ p ∈ a, p ∈ m1 ∨ p ∈ m2) → ∀ l ∈ a.map Prod.snd, (l : Label).name ≠ n := by
    intro a hkeys hmem l hl
    obtain ⟨p, hp, rfl⟩ := List.mem_map.mp hl
    rcases hmem p hp with hm | hm
    · rw [wf1 p hm]
      exact hkeys p hp
    · rw [wf2 p hm]
      exact hkeys p hp
  have hmem1 : ∀ p ∈ a1, p ∈ m1 ∨ p ∈ m2 := by
    intro p hp
    exact Or.inl (hm1eq ▸ List.mem_append_left _ hp)
  have hmem1b : ∀ p ∈ b1, p ∈ m1 ∨ p ∈ m2 := by
    intro p hp
    exact Or.inl (hm1eq ▸ List.mem_append_right _ (List.mem_cons_of_mem _ hp))
  have hmem2 : ∀ p ∈ a2, p ∈ m1 ∨ p ∈ m2 := by
    intro p hp
    exact Or.inr (hm2eq ▸ List.mem_append_left _ hp)
  have hmem2b : ∀ p ∈ b2, p ∈ m1 ∨ p ∈ m2 := by
    intro p hp
    exact Or.inr (hm2eq ▸ List.mem_append_right _ (List.mem_cons_of_mem _ hp))
  -- unfold the big fold into segments
  have hflat : allLabels teams
      = a1.map Prod.snd ++ (l1 :: (b1.map Prod.snd
          ++ (a2.map Prod.snd ++ (l2 :: b2.map Prod.snd)))) := by
    rw [hteams]
    show m1.map Prod.snd ++ (m2.map Prod.snd ++ allLabels []) = _
    rw [hm1eq, hm2eq]
    simp [allLabels]
  have hsync : syncPlan teams
      = (b2.map Prod.snd).foldl (labelStep teams)
          (labelStep teams
            ((a2.map Prod.snd).foldl (labelStep teams)
              ((b1.map Prod.snd).foldl (labelStep teams)
                (labelStep teams
                  ((a1.map Prod.snd).foldl (labelStep teams)
                    ⟨plansInit teams, plansInit teams⟩) l1))) l2) := by
    rw [syncPlan, hflat, List.foldl_append, List.foldl_cons, List.foldl_append,
      List.foldl_append, List.foldl_cons]
  rw [hsync]
  set s1 := (a1.map Prod.snd).foldl (labelStep teams)
    (⟨plansInit teams, plansInit teams⟩ : PlanState) with hs1
  rw [hstep1 s1]
  set s4 := (a2.map Prod.snd).foldl (labelStep teams)
    ((b1.map Prod.snd).foldl (labelStep teams) s1) with hs4
  have h1t1 : getIn s1.update_labels t1 n = none := by
    rw [hs1, fold_updates_getIn_preserved teams _ _ t1 n (hnames a1 ha1 hmem1)]
    exact getIn_plansInit teams t1 n
  have h1t2 : getIn s1.update_labels t2 n = none := by
    rw [hs1, fold_updates_getIn_preserved teams _ _ t2 n (hnames a1 ha1 hmem1)]
    exact getIn_plansInit teams t2 n
  have hs1some : (alGet s1.update_labels t1).isSome = true := by
    rw [hs1, fold_updates_outer_isSome]
    show (alGet (plansInit teams) t1).isSome = true
    rw [alGet_plansInit, hteam1]
    rfl
  have h4t1 : getIn s4.update_labels t1 n = none := by
    rw [hs4, fold_updates_getIn_preserved teams _ _ t1 n (hnames a2 ha2 hmem2),
      fold_updates_getIn_preserved teams _ _ t1 n (hnames b1 hb1 hmem1b)]
    exact h1t1
  have h4t2 : getIn s4.update_labels t2 n = none := by
    rw [hs4, fold_updates_getIn_preserved teams _ _ t2 n (hnames a2 ha2 hmem2),
      fold_updates_getIn_preserved teams _ _ t2 n (hnames b1 hb1 hmem1b)]
    exact h1t2
  have h4some : (alGet s4.update_labels t1).isSome = true := by
    rw [hs4, fold_updates_outer_isSome, fold_updates_outer_isSome]
    exact hs1some
  obtain ⟨h5t1, h5t2⟩ := hstep2 s4 h4t1 h4some
  constructor
  · rw [fold_updates_getIn_preserved teams _ _ t1 n (hnames b2 hb2 hmem2b)]
    exact h5t1
  · rw [fold_updates_getIn_preserved teams _ _ t2 n (hnames b2 hb2 hmem2b)]
    rw [h5t2]
    exact h4t2

/-- Helper for C5, covering the snapshot that enumerates the newer label's
team first. -/
theorem syncPlan_two_teams_newer_first (t1 t2 : Nat) (m1 m2 : LabelMap) (l1 l2 : Label)
    (n : String) (hne : t1 ≠ t2)
    (wf1 : NameKeyed m1) (wf2 : NameKeyed m2)
    (nd1 : (m1.map Prod.fst).Nodup) (nd2 : (m2.map Prod.fst).Nodup)
    (h1 : alGet m1 n = some l1) (h2 : alGet m2 n = some l2)
    (hmeta : l1.meta_equals l2 = false)
    (hlt : l1.updated_at < l2.updated_at) :
    getIn (syncPlan [(t2, m2), (t1, m1)]).update_labels t1 n = some l2
    ∧ getIn (syncPlan [(t2, m2), (t1, m1)]).update_labels t2 n = none := by
  set teams2 : Snapshot := [(t2, m2), (t1, m1)] with hteams2
  have hn1 : l1.name = n := wf1 (n, l1) (mem_of_alGet_eq_some h1)
  have hn2 : l2.name = n := wf2 (n, l2) (mem_of_alGet_eq_some h2)
  have hteam2 : alGet teams2 t2 = some m2 := by simp [hteams2, alGet]
  have hteam1 : alGet teams2 t1 = some m1 := by simp [hteams2, alGet, Ne.symm hne]
  -- the two interesting label steps: when the newer team is enumerated first,
  -- the newer label l2 is processed first and performs the single write
  have hstep1 : ∀ st, labelStep teams2 st l1 = st := by
    intro st
    have hg1 : alGet m1 l1.name = some l1 := by rw [hn1]; exact h1
    have hg2 : alGet m2 l1.name = some l2 := by rw [hn1]; exact h2
    have e1 : teamStep l1 st (t2, m2) = st := by
      unfold teamStep
      simp [hg2, Nat.lt_asymm hlt]
    have e2 : teamStep l1 st (t1, m1) = st := by
      unfold teamStep
      simp [hg1, meta_equals_self]
    show List.foldl (teamStep l1) st teams2 = st
    rw [hteams2]
    simp only [List.foldl_cons, List.foldl_nil, e1, e2]
  have hstep2 : ∀ st, getIn st.update_labels t1 n = none →
      (alGet st.update_labels t1).isSome = true →
      getIn (labelStep teams2 st l2).update_labels t1 n = some l2
      ∧ getIn (labelStep teams2 st l2).update_labels t2 n
          = getIn st.update_labels t2 n := by
    intro st hnone hsome
    have hg1 : alGet m1 l2.name = some l1 := by rw [hn2]; exact h1
    have hg2 : alGet m2 l2.name = some l2 := by rw [hn2]; exact h2
    have hguard : getIn st.update_labels t1 l2.name = none := by rw [hn2]; exact hnone
    have e1 : ∀ st', teamStep l2 st' (t2, m2) = st' := by
      intro st'
      unfold teamStep
      simp [hg2, meta_equals_self]
    have e2 : teamStep l2 st (t1, m1)
        = { st with update_labels := setIn st.update_labels t1 l2.name l2 } := by
      unfold teamStep
      simp [hg1, hguard, hmeta, hlt]
    have hfold : labelStep teams2 st l2
        = { st with update_labels := setIn st.update_labels t1 l2.name l2 } := by
      show List.foldl (teamStep l2) st teams2 = _
      rw [hteams2]
      simp only [List.foldl_cons, List.foldl_nil, e1, e2]
    rw [hfold]
    constructor
    · show getIn (setIn st.update_labels t1 l2.name l2) t1 n = some l2
      rw [hn2]
      exact getIn_setIn_self_of_isSome _ _ hsome
    · show getIn (setIn st.update_labels t1 l2.name l2) t2 n
        = getIn st.update_labels t2 n
      exact getIn_setIn_ne _ _ _ _ _ _ (Or.inl (Ne.symm hne))
  -- decompose the label maps around the two labels named n
  obtain ⟨a1, b1, hm1eq, ha1, hb1⟩ := alGet_split nd1 h1
  obtain ⟨a2, b2, hm2eq, ha2, hb2⟩ := alGet_split nd2 h2
  have hnames : ∀ (a : List (String × Label)), (∀ p ∈ a, (p : String × Label).1 ≠ n) →
      (∀ p ∈ a, p ∈ m1 ∨ p ∈ m2) → ∀ l ∈ a.map Prod.snd, (l : Label).name ≠ n := by
    intro a hkeys hmem l hl
    obtain ⟨p, hp, rfl⟩ := List.mem_map.mp hl
    rcases hmem p hp with hm | hm
    · rw [wf1 p hm]
      exact hkeys p hp
    · rw [wf2 p hm]
      exact hkeys p hp
  have hmem1 : ∀ p ∈ a1, p ∈ m1 ∨ p ∈ m2 := by
    intro p hp
    exact Or.inl (hm1eq ▸ List.mem_append_left _ hp)
  have hmem1b : ∀ p ∈ b1, p ∈ m1 ∨ p ∈ m2 := by
    intro p hp
    exact Or.inl (hm1eq ▸ List.mem_append_right _ (List.mem_cons_of_mem _ hp))
  have hmem2 : ∀ p ∈ a2, p ∈ m1 ∨ p ∈ m2 := by
    intro p hp
    exact Or.inr (hm2eq ▸ List.mem_append_left _ hp)
  have hmem2b : ∀ p ∈ b2, p ∈ m1 ∨ p ∈ m2 := by
    intro p hp
    exact Or.inr (hm2eq ▸ List.mem_append_right _ (List.mem_cons_of_mem _ hp))
  -- unfold the big fold into segments: m2's labels come first here
  have hflat : allLabels teams2
      = a2.map Prod.snd ++ (l2 :: (b2.map Prod.snd
          ++ (a1.map Prod.snd ++ (l1 :: b1.map Prod.snd)))) := by
    rw [hteams2]
    show m2.map Prod.snd ++ (m1.map Prod.snd ++ allLabels []) = _
    rw [hm1eq, hm2eq]
    simp [allLabels]
  have hsync : syncPlan teams2
      = (b1.map Prod.snd).foldl (labelStep teams2)
          (labelStep teams2
            ((a1.map Prod.snd).foldl (labelStep teams2)
              ((b2.map Prod.snd).foldl (labelStep teams2)
                (labelStep teams2
                  ((a2.map Prod.snd).foldl (labelStep teams2)
                    ⟨plansInit teams2, plansInit teams2⟩) l2))) l1) := by
    rw [syncPlan, hflat, List.foldl_append, List.foldl_cons, List.foldl_append,
      List.foldl_append, List.foldl_cons]
  rw [hsync]
  set s1 := (a2.map Prod.snd).foldl (labelStep teams2)
    (⟨plansInit teams2, plansInit teams2⟩ : PlanState) with hs1
  have h1t1 : getIn s1.update_labels t1 n = none := by
    rw [hs1, fold_updates_getIn_preserved teams2 _ _ t1 n (hnames a2 ha2 hmem2)]
    exact getIn_plansInit teams2 t1 n
  have h1t2 : getIn s1.update_labels t2 n = none := by
    rw [hs1, fold_updates_getIn_preserved teams2 _ _ t2 n (hnames a2 ha2 hmem2)]
    exact getIn_plansInit teams2 t2 n
  have hs1some : (alGet s1.update_labels t1).isSome = true := by
    rw [hs1, fold_updates_outer_isSome]
    show (alGet (plansInit teams2) t1).isSome = true
    rw [alGet_plansInit, hteam1]
    rfl
  obtain ⟨h2t1, h2t2⟩ := hstep2 s1 h1t1 hs1some
  set s2 := labelStep teams2 s1 l2 with hs2
  set s4 := (a1.map Prod.snd).foldl (labelStep teams2)
    ((b2.map Prod.snd).foldl (labelStep teams2) s2) with hs4
  have h4t1 : getIn s4.update_labels t1 n = some l2 := by
    rw [hs4, fold_updates_getIn_preserved teams2 _ _ t1 n (hnames a1 ha1 hmem1),
      fold_updates_getIn_preserved teams2 _ _ t1 n (hnames b2 hb2 hmem2b)]
    exact h2t1
  have h4t2 : getIn s4.update_labels t2 n = none := by
    rw [hs4, fold_updates_getIn_preserved teams2 _ _ t2 n (hnames a1 ha1 hmem1),
      fold_updates_getIn_preserved teams2 _ _ t2 n (hnames b2 hb2 hmem2b)]
    rw [h2t2]
    exact h1t2
  rw [hstep1 s4]
  constructor
  · rw [fold_updates_getIn_preserved teams2 _ _ t1 n (hnames b1 hb1 hmem1b)]
    exact h4t1
  · rw [fold_updates_getIn_preserved teams2 _ _ t2 n (hnames b1 hb1 hmem1b)]
    exact h4t2

/-- C5: in a snapshot holding exactly the two teams — in either enumeration
order, since the fetch populates the snapshot dict in arbitrary order — that
both contain a label named `n` with different color/description
(`meta_equals` false) and strictly different `updated_at`, the computed plan
contains exactly one update proposal for `n`: the team holding the older label
is updated from the newer label, and the newer label's team gets no update —
never the reverse. -/
theorem c5_update_newer_wins (t1 t2 : Nat) (m1 m2 : LabelMap) (l1 l2 : Label)
    (n : String) (hne : t1 ≠ t2)
    (wf1 : NameKeyed m1) (wf2 : NameKeyed m2)
    (nd1 : (m1.map Prod.fst).Nodup) (nd2 : (m2.map Prod.fst).Nodup)
    (h1 : alGet m1 n = some l1) (h2 : alGet m2 n = some l2)
    (hmeta : l1.meta_equals l2 = false)
    (hlt : l1.updated_at < l2.updated_at) :
    (getIn (syncPlan [(t1, m1), (t2, m2)]).update_labels t1 n = some l2
      ∧ getIn (syncPlan [(t1, m1), (t2, m2)]).update_labels t2 n = none)
    ∧ (getIn (syncPlan [(t2, m2), (t1, m1)]).update_labels t1 n = some l2
      ∧ getIn (syncPlan [(t2, m2), (t1, m1)]).update_labels t2 n = none) :=
  ⟨syncPlan_two_teams_older_first t1 t2 m1 m2 l1 l2 n hne wf1 wf2 nd1 nd2
      h1 h2 hmeta hlt,
    syncPlan_two_teams_newer_first t1 t2 m1 m2 l1 l2 n hne wf1 wf2 nd1 nd2
      h1 h2 hmeta hlt⟩

/-- Witness for C5 on two concrete teams with a shared label name, in both
enumeration orders. -/
theorem c5_update_newer_wins_witness :
    (1 : Nat) ≠ 2
    ∧ NameKeyed [("n", (⟨11, "n", "red", "", ⟨1, "A"⟩, 0, 1⟩ : Label))]
    ∧ NameKeyed [("n", (⟨12, "n", "blue", "", ⟨2, "B"⟩, 0, 5⟩ : Label))]
    ∧ (⟨11, "n", "red", "", ⟨1, "A"⟩, 0, 1⟩ : Label).meta_equals
        ⟨12, "n", "blue", "", ⟨2, "B"⟩, 0, 5⟩ = false
    ∧ ((getIn (syncPlan [(1, [("n", (⟨11, "n", "red", "", ⟨1, "A"⟩, 0, 1⟩ : Label))]),
          (2, [("n", (⟨12, "n", "blue", "", ⟨2, "B"⟩, 0, 5⟩ : Label))])]).update_labels 1 "n"
        = some ⟨12, "n", "blue", "", ⟨2, "B"⟩, 0, 5⟩
      ∧ getIn (syncPlan [(1, [("n", (⟨11, "n", "red", "", ⟨1, "A"⟩, 0, 1⟩ : Label))]),
          (2, [("n", (⟨12, "n", "blue", "", ⟨2, "B"⟩, 0, 5⟩ : Label))])]).update_labels 2 "n"
        = none)
    ∧ (getIn (syncPlan [(2, [("n", (⟨12, "n", "blue", "", ⟨2, "B"⟩, 0, 5⟩ : Label))]),
          (1, [("n", (⟨11, "n", "red", "", ⟨1, "A"⟩, 0, 1⟩ : Label))])]).update_labels 1 "n"
        = some ⟨12, "n", "blue", "", ⟨2, "B"⟩, 0, 5⟩
      ∧ getIn (syncPlan [(2, [("n", (⟨12, "n", "blue", "", ⟨2, "B"⟩, 0, 5⟩ : Label))]),
          (1, [("n", (⟨11, "n", "red", "", ⟨1, "A"⟩, 0, 1⟩ : Label))])]).update_labels 2 "n"
        = none)) :=
  ⟨by decide, by simp [NameKeyed], by simp [NameKeyed], by decide,
    c5_update_newer_wins 1 2
      [("n", ⟨11, "n", "red", "", ⟨1, "A"⟩, 0, 1⟩)]
      [("n", ⟨12, "n", "blue", "", ⟨2, "B"⟩, 0, 5⟩)]
      ⟨11, "n", "red", "", ⟨1, "A"⟩, 0, 1⟩
      ⟨12, "n", "blue", "", ⟨2, "B"⟩, 0, 5⟩
      "n" (by decide) (by simp [NameKeyed])
      (by simp [NameKeyed]) (by decide) (by decide) (by decide) (by decide)
      (by decide) (by decide)⟩

/-! ### Claim C7 (idempotence): infrastructure -/

theorem mem_allLabels_of_mem {teams : Snapshot} {e : Nat × LabelMap} {k : String}
    {l : Label} (he : e ∈ teams) (hk : (k, l) ∈ e.2) : l ∈ allLabels teams := by
  induction teams with
  | nil => cases he
  | cons e0 rest ih =>
    simp only [allLabels, List.mem_append]
    rcases List.mem_cons.mp he with he | he
    · subst he
      exact Or.inl (List.mem_map.mpr ⟨(k, l), hk, rfl⟩)
    · exact Or.inr (ih he)

theorem exists_of_mem_allLabels {teams : Snapshot} {l : Label}
    (h : l ∈ allLabels teams) : ∃ e ∈ teams, ∃ k, (k, l) ∈ (e : Nat × LabelMap).2 := by
  induction teams with
  | nil => cases h
  | cons e0 rest ih =>
    simp only [allLabels, List.mem_append] at h
    rcases h with h | h
    · obtain ⟨p, hp, rfl⟩ := List.mem_map.mp h
      exact ⟨e0, List.mem_cons_self _ _, p.1, by simpa using hp⟩
    · obtain ⟨e, he, k, hk⟩ := ih h
      exact ⟨e, List.mem_cons_of_mem _ he, k, hk⟩

theorem keys_foldl_alModify (g : String × Label → Label → Label) :
    ∀ (items : List (String × Label)) (m : LabelMap),
      ((items.foldl (fun m p => alModify m p.1 (g p)) m).map Prod.fst)
        = m.map Prod.fst := by
  intro items
  induction items with
  | nil => intro m; rfl
  | cons p rest ih =>
    intro m
    simp only [List.foldl_cons]
    rw [ih, keys_alModify]

theorem mem_keys_foldl_alSet :
    ∀ (items : List (String × Label)) (m : LabelMap) (k : String),
      (k ∈ (items.foldl (fun m p => alSet m p.1 p.2) m).map Prod.fst
        ↔ k ∈ m.map Prod.fst ∨ k ∈ items.map Prod.fst) := by
  intro items
  induction items with
  | nil => intro m k; simp
  | cons p rest ih =>
    intro m k
    simp only [List.foldl_cons, List.map_cons, List.mem_cons]
    rw [ih, mem_keys_alSet]
    tauto

theorem mem_foldl_alSet {p : String × Label} :
    ∀ (items : List (String × Label)) (m : LabelMap),
      p ∈ items.foldl (fun m q => alSet m q.1 q.2) m → p ∈ m ∨ p ∈ items := by
  intro items
  induction items with
  | nil => intro m h; exact Or.inl h
  | cons q rest ih =>
    intro m h
    simp only [List.foldl_cons] at h
    rcases ih _ h with h | h
    · rcases mem_alSet h with h | h
      · exact Or.inl h
      · exact Or.inr (by rw [h]; simp)
    · exact Or.inr (List.mem_cons_of_mem _ h)

theorem mem_foldl_alModify (g : String × Label → Label → Label) {p : String × Label} :
    ∀ (items : List (String × Label)) (m : LabelMap),
      p ∈ items.foldl (fun m q => alModify m q.1 (g q)) m →
      p ∈ m ∨ ∃ q ∈ items, ∃ v, p = ((q : String × Label).1, g q v) := by
  intro items
  induction items with
  | nil => intro m h; exact Or.inl h
  | cons q rest ih =>
    intro m h
    simp only [List.foldl_cons] at h
    rcases ih _ h with h | ⟨q', hq', v, hv⟩
    · rcases mem_alModify h with h | ⟨v, _, hp⟩
      · exact Or.inl h
      · exact Or.inr ⟨q, List.mem_cons_self _ _, v, hp⟩
    · exact Or.inr ⟨q', List.mem_cons_of_mem _ hq', v, hv⟩

theorem teamStep_cases (l : Label) (st : PlanState) (other : Nat × LabelMap) :
    teamStep l st other = st
    ∨ teamStep l st other
        = { st with create_labels := setIn st.create_labels other.1 l.name l }
    ∨ teamStep l st other
        = { st with update_labels := setIn st.update_labels other.1 l.name l } := by
  unfold teamStep
  cases alGet other.2 l.name with
  | none =>
    simp only []
    split
    · exact Or.inr (Or.inl rfl)
    · exact Or.inl rfl
  | some existing_label =>
    simp only []
    split
    · exact Or.inr (Or.inr rfl)
    · exact Or.inl rfl

theorem outerSome_teamStep (teams : Snapshot) (l : Label) (st : PlanState)
    (other : Nat × LabelMap) (h : OuterSome teams st) :
    OuterSome teams (teamStep l st other) := by
  intro t
  rcases teamStep_cases l st other with he | he | he <;> rw [he]
  · exact h t
  · exact ⟨(alGet_setIn_isSome _ _ _ _ _).trans (h t).1, (h t).2⟩
  · exact ⟨(h t).1, (alGet_setIn_isSome _ _ _ _ _).trans (h t).2⟩

theorem outerSome_init (teams : Snapshot) :
    OuterSome teams ⟨plansInit teams, plansInit teams⟩ := by
  intro t
  constructor <;>
  · show (alGet (plansInit teams) t).isSome = _
    rw [alGet_plansInit]
    cases alGet teams t <;> rfl

theorem outerSome_labelStep (teams : Snapshot) (l : Label) (st : PlanState)
    (h : OuterSome teams st) : OuterSome teams (labelStep teams st l) := by
  unfold labelStep
  refine foldl_induct (teamStep l) (OuterSome teams) teams st h ?_
  intro s other _ hs
  exact outerSome_teamStep teams l s other hs

theorem teamStep_creates_ne_none (l' : Label) (st : PlanState)
    (other : Nat × LabelMap) (t : Nat) (n : String)
    (h : getIn st.create_labels t n ≠ none) :
    getIn (teamStep l' st other).create_labels t n ≠ none := by
  rcases teamStep_cases l' st other with he | he | he <;> rw [he]
  · exact h
  · by_cases hc : t = other.1 ∧ n = l'.name
    · obtain ⟨rfl, rfl⟩ := hc
      have hsome : (alGet st.create_labels other.1).isSome = true := by
        cases hg : alGet st.create_labels other.1 with
        | none =>
          exfalso
          apply h
          unfold getIn
          rw [hg]
          rfl
        | some m => rfl
      rw [getIn_setIn_self_of_isSome _ _ hsome]
      exact fun hh => Option.noConfusion hh
    · rw [getIn_setIn_ne _ _ _ _ _ _ (by tauto)]
      exact h
  · exact h

theorem labelStep_creates_ne_none (teams : Snapshot) (l' : Label) (st : PlanState)
    (t : Nat) (n : String) (h : getIn st.create_labels t n ≠ none) :
    getIn (labelStep teams st l').create_labels t n ≠ none := by
  unfold labelStep
  refine foldl_induct (teamStep l')
    (fun s => getIn s.create_labels t n ≠ none) teams st h ?_
  intro s other _ hs
  exact teamStep_creates_ne_none l' s other t n hs

theorem planEntriesWF_init (teams : Snapshot) :
    PlanEntriesWF teams ⟨plansInit teams, plansInit teams⟩ := by
  intro tid mlist hm p hp
  have hnil : mlist = [] := by
    rcases hm with hm | hm <;>
    · rw [alGet_plansInit] at hm
      cases hg : alGet teams tid with
      | none => rw [hg] at hm; cases hm
      | some m =>
        rw [hg] at hm
        injection hm with hm
        exact hm.symm
  rw [hnil] at hp
  cases hp

theorem planEntriesWF_teamStep (teams : Snapshot) (l : Label) (st : PlanState)
    (other : Nat × LabelMap)
    (hl : ∃ e ∈ teams, (l.name, l) ∈ (e : Nat × LabelMap).2)
    (h : PlanEntriesWF teams st) : PlanEntriesWF teams (teamStep l st other) := by
  have hset : ∀ (plans : LabelChanges),
      (∀ tid mlist, alGet plans tid = some mlist →
        ∀ p ∈ mlist, (p.2 : Label).name = p.1 ∧ ∃ e ∈ teams, p ∈ e.2) →
      ∀ tid mlist, alGet (setIn plans other.1 l.name l) tid = some mlist →
        ∀ p ∈ mlist, (p.2 : Label).name = p.1 ∧ ∃ e ∈ teams, p ∈ e.2 := by
    intro plans hplans tid mlist hm p hp
    by_cases ht : tid = other.1
    · rw [ht] at hm
      unfold setIn at hm
      rw [alGet_alModify_self] at hm
      cases hg : alGet plans other.1 with
      | none =>
        rw [hg] at hm
        cases hm
      | some m0 =>
        rw [hg] at hm
        injection hm with hm
        subst hm
        rcases mem_alSet hp with hp | hp
        · exact hplans other.1 m0 hg p hp
        · subst hp
          exact ⟨rfl, hl⟩
    · unfold setIn at hm
      rw [alGet_alModify_ne _ _ _ _ ht] at hm
      exact hplans tid mlist hm p hp
  rcases teamStep_cases l st other with he | he | he <;> rw [he]
  · exact h
  · intro tid mlist hm
    rcases hm with hm | hm
    · exact hset st.create_labels (fun tid' mlist' hm' => h tid' mlist' (Or.inl hm'))
        tid mlist hm
    · exact h tid mlist (Or.inr hm)
  · intro tid mlist hm
    rcases hm with hm | hm
    · exact h tid mlist (Or.inl hm)
    · exact hset st.update_labels (fun tid' mlist' hm' => h tid' mlist' (Or.inr hm'))
        tid mlist hm

theorem planEntriesWF_syncPlan (teams : Snapshot)
    (hname : ∀ e ∈ teams, NameKeyed (e : Nat × LabelMap).2) :
    PlanEntriesWF teams (syncPlan teams) := by
  unfold syncPlan
  refine foldl_induct (labelStep teams) (PlanEntriesWF teams) _ _
    (planEntriesWF_init teams) ?_
  intro st l hl hst
  have hl' : ∃ e ∈ teams, (l.name, l) ∈ (e : Nat × LabelMap).2 := by
    obtain ⟨e, he, k, hk⟩ := exists_of_mem_allLabels hl
    have hn := hname e he (k, l) hk
    exact ⟨e, he, hn.symm ▸ hk⟩
  unfold labelStep
  refine foldl_induct (teamStep l) (PlanEntriesWF teams) teams st hst ?_
  intro st' other _ hst'
  exact planEntriesWF_teamStep teams l st' other hl' hst'

theorem syncPlan_creates_cover (teams : Snapshot) (l : Label)
    (hl : l ∈ allLabels teams) (e : Nat × LabelMap) (he : e ∈ teams) :
    alGet e.2 l.name ≠ none
      ∨ getIn (syncPlan teams).create_labels e.1 l.name ≠ none := by
  cases hsnap : alGet e.2 l.name with
  | some v =>
    exact Or.inl (fun h => Option.noConfusion h)
  | none =>
    right
    unfold syncPlan
    refine foldl_estab (labelStep teams) (OuterSome teams)
      (fun st => getIn st.create_labels e.1 l.name ≠ none)
      (allLabels teams) l hl _ (outerSome_init teams)
      (fun s a _ hq => outerSome_labelStep teams a s hq) ?_ ?_
    · intro s hq
      unfold labelStep
      refine foldl_estab (teamStep l) (OuterSome teams)
        (fun st => getIn st.create_labels e.1 l.name ≠ none)
        teams e he s hq
        (fun s' o _ hq' => outerSome_teamStep teams l s' o hq') ?_ ?_
      · intro s' hq'
        have hsome : (alGet s'.create_labels e.1).isSome = true := by
          rw [(hq' e.1).1]
          exact alGet_isSome_iff.mpr (List.mem_map.mpr ⟨e, he, rfl⟩)
        have hres : getIn (setIn s'.create_labels e.1 l.name l) e.1 l.name = some l :=
          getIn_setIn_self_of_isSome _ _ hsome
        unfold teamStep
        rw [hsnap]
        simp only []
        cases hc : getIn s'.create_labels e.1 l.name with
        | none =>
          rw [if_pos rfl]
          show getIn (setIn s'.create_labels e.1 l.name l) e.1 l.name ≠ none
          rw [hres]
          exact fun hh => Option.noConfusion hh
        | some ec =>
          by_cases hd : ec.updated_at < l.updated_at
          · rw [if_pos (decide_eq_true hd)]
            show getIn (setIn s'.create_labels e.1 l.name l) e.1 l.name ≠ none
            rw [hres]
            exact fun hh => Option.noConfusion hh
          · rw [if_neg (by simp [hd])]
            rw [hc]
            exact fun hh => Option.noConfusion hh
      · intro s' o _ hp
        exact teamStep_creates_ne_none l s' o e.1 l.name hp
    · intro s a _ hp
      exact labelStep_creates_ne_none teams a s e.1 l.name hp

theorem nameKeyed_applyToTeam (teams : Snapshot) (st : PlanState) (fresh : Nat)
    (hentries : PlanEntriesWF teams st)
    (e : Nat × LabelMap) (hname : NameKeyed e.2) :
    NameKeyed (applyToTeam st fresh e).2 := by
  intro p hp
  unfold applyToTeam at hp
  simp only [] at hp
  rcases mem_foldl_alModify (fun q old => applyLabelUpdate q.2 fresh old) _ _ hp
    with hp | ⟨q, hq, v, hv⟩
  · rcases mem_foldl_alSet _ _ hp with hp | hp
    · exact hname p hp
    · cases hg : alGet st.create_labels e.1 with
      | none =>
        rw [hg] at hp
        cases hp
      | some mlist =>
        rw [hg] at hp
        exact (hentries e.1 mlist (Or.inl hg) p hp).1
  · cases hg : alGet st.update_labels e.1 with
    | none =>
      rw [hg] at hq
      cases hq
    | some mlist =>
      rw [hg] at hq
      have hqn := (hentries e.1 mlist (Or.inr hg) q hq).1
      rw [hv]
      calc (applyLabelUpdate q.2 fresh v).name = q.2.name := rfl
        _ = q.1 := hqn

theorem alGet_applyToTeam_ne_none (st : PlanState) (fresh : Nat)
    (e : Nat × LabelMap) (k : String)
    (h : alGet e.2 k ≠ none ∨ getIn st.create_labels e.1 k ≠ none) :
    alGet (applyToTeam st fresh e).2 k ≠ none := by
  have hk : k ∈ ((applyToTeam st fresh e).2.map Prod.fst) := by
    unfold applyToTeam
    simp only []
    rw [keys_foldl_alModify, mem_keys_foldl_alSet]
    rcases h with h | h
    · exact Or.inl (alGet_isSome_iff.mp (Option.ne_none_iff_isSome.mp h))
    · right
      cases hg : alGet st.create_labels e.1 with
      | none =>
        exfalso
        apply h
        unfold getIn
        rw [hg]
        rfl
      | some mlist =>
        have hne : alGet mlist k ≠ none := by
          intro hnone
          apply h
          unfold getIn
          rw [hg]
          simpa using hnone
        have hmem : k ∈ mlist.map Prod.fst :=
          alGet_isSome_iff.mp (Option.ne_none_iff_isSome.mp hne)
        simpa [hg] using hmem
  exact Option.ne_none_iff_isSome.mpr (alGet_isSome_iff.mpr hk)

theorem applyPlan_complete (teams : Snapshot) (fresh : Nat)
    (hname : ∀ e ∈ teams, NameKeyed (e : Nat × LabelMap).2) :
    ∀ e' ∈ applyPlan (syncPlan teams) fresh teams,
      ∀ l ∈ allLabels (applyPlan (syncPlan teams) fresh teams),
        alGet (e' : Nat × LabelMap).2 l.name ≠ none := by
  intro e' he' l hl
  have hentries := planEntriesWF_syncPlan teams hname
  obtain ⟨e0', he0', k, hk⟩ := exists_of_mem_allLabels hl
  obtain ⟨e0, he0, heq0⟩ := List.mem_map.mp he0'
  have hname0' : NameKeyed (e0' : Nat × LabelMap).2 := by
    rw [← heq0]
    exact nameKeyed_applyToTeam teams _ fresh hentries e0 (hname e0 he0)
  have hdk : l.name = k := hname0' (k, l) hk
  have horig : ∃ e2 ∈ teams, ∃ v, (k, v) ∈ (e2 : Nat × LabelMap).2 := by
    have hkk : k ∈ ((applyToTeam (syncPlan teams) fresh e0).2.map Prod.fst) := by
      rw [heq0]
      exact List.mem_map.mpr ⟨(k, l), hk, rfl⟩
    revert hkk
    unfold applyToTeam
    simp only []
    rw [keys_foldl_alModify, mem_keys_foldl_alSet]
    intro hkk
    rcases hkk with hkk | hkk
    · obtain ⟨p, hp, hpk⟩ := List.mem_map.mp hkk
      exact ⟨e0, he0, p.2, by rw [← hpk]; simpa using hp⟩
    · cases hg : alGet (syncPlan teams).create_labels e0.1 with
      | none =>
        rw [hg] at hkk
        cases hkk
      | some mlist =>
        rw [hg] at hkk
        simp only [Option.getD_some] at hkk
        obtain ⟨p, hp, hpk⟩ := List.mem_map.mp hkk
        obtain ⟨-, e2, he2, hpe⟩ := hentries e0.1 mlist (Or.inl hg) p hp
        exact ⟨e2, he2, p.2, by rw [← hpk]; simpa using hpe⟩
  obtain ⟨e2, he2, v, hv⟩ := horig
  have hvall : v ∈ allLabels teams := mem_allLabels_of_mem he2 hv
  have hvname : v.name = k := hname e2 he2 (k, v) hv
  obtain ⟨e, he, heq⟩ := List.mem_map.mp he'
  rw [← heq, hdk, ← hvname]
  exact alGet_applyToTeam_ne_none _ fresh e v.name
    (syncPlan_creates_cover teams v hvall e he)

theorem syncPlan_no_creates_of_complete (teams2 : Snapshot)
    (hcomp : ∀ e ∈ teams2, ∀ l ∈ allLabels teams2,
      alGet (e : Nat × LabelMap).2 (l : Label).name ≠ none)
    (t : Nat) (n : String) :
    getIn (syncPlan teams2).create_labels t n = none := by
  have hI : ∀ t' n', getIn (syncPlan teams2).create_labels t' n' = none := by
    unfold syncPlan
    refine foldl_induct (labelStep teams2)
      (fun st => ∀ t' n', getIn st.create_labels t' n' = none) _ _
      (fun t' n' => getIn_plansInit teams2 t' n') ?_
    intro st l hl hst
    unfold labelStep
    refine foldl_induct (teamStep l)
      (fun st' => ∀ t' n', getIn st'.create_labels t' n' = none) teams2 st hst ?_
    intro st' e he hst'
    intro t' n'
    unfold teamStep
    cases hsnap : alGet e.2 l.name with
    | none => exact absurd hsnap (hcomp e he l hl)
    | some ex =>
      simp only []
      split
      · exact hst' t' n'
      · exact hst' t' n'

  exact hI t n

/-! ### Claim C7 (idempotence): results -/

/-- C7 counterexample: idempotence fails. Three teams all hold a label named
"n": team 1 has it red with timestamp 1, team 2 red with timestamp 5, team 3
blue with timestamp 3. The first plan updates team 1 to blue@3 (team 2's newer
red copy is skipped by the `meta_equals` filter because it matches team 1's
red) and team 3 to red@5. Applying that plan (fresh timestamp 10, newer than
every timestamp in the snapshot) leaves team 1 blue and teams 2 and 3 red, so
recomputing proposes updating team 2 — the second plan is not empty. -/
theorem c7_counterexample :
    getIn (syncPlan (applyPlan (syncPlan
        [(1, [("n", ⟨11, "n", "red", "", ⟨1, "A"⟩, 0, 1⟩)]),
         (2, [("n", ⟨12, "n", "red", "", ⟨2, "B"⟩, 0, 5⟩)]),
         (3, [("n", ⟨13, "n", "blue", "", ⟨3, "C"⟩, 0, 3⟩)])]) 10
        [(1, [("n", ⟨11, "n", "red", "", ⟨1, "A"⟩, 0, 1⟩)]),
         (2, [("n", ⟨12, "n", "red", "", ⟨2, "B"⟩, 0, 5⟩)]),
         (3, [("n", ⟨13, "n", "blue", "", ⟨3, "C"⟩, 0, 3⟩)])])).update_labels 2 "n"
      ≠ none := by
  decide

/-- C7 as amended: the creates half of idempotence holds. After applying the
computed plan to a (name-keyed) snapshot, every team holds every label name
occurring anywhere in the applied snapshot, so recomputing the plan proposes
zero creates; the recomputed plan can still contain updates (see the
counterexample). -/
theorem c7_reapply_no_creates (teams : Snapshot) (fresh : Nat)
    (hname : ∀ e ∈ teams, NameKeyed (e : Nat × LabelMap).2) (t : Nat) (n : String) :
    getIn (syncPlan (applyPlan (syncPlan teams) fresh teams)).create_labels t n
      = none := by
  apply syncPlan_no_creates_of_complete
  intro e he l hl
  exact applyPlan_complete teams fresh hname e he l hl

/-- Witness for C7's amended theorem on the counterexample snapshot. -/
theorem c7_reapply_no_creates_witness :
    (∀ e ∈ ([(1, [("n", ⟨11, "n", "red", "", ⟨1, "A"⟩, 0, 1⟩)]),
         (2, [("n", ⟨12, "n", "red", "", ⟨2, "B"⟩, 0, 5⟩)]),
         (3, [("n", ⟨13, "n", "blue", "", ⟨3, "C"⟩, 0, 3⟩)])] : Snapshot),
        NameKeyed (e : Nat × LabelMap).2)
    ∧ getIn (syncPlan (applyPlan (syncPlan
        [(1, [("n", ⟨11, "n", "red", "", ⟨1, "A"⟩, 0, 1⟩)]),
         (2, [("n", ⟨12, "n", "red", "", ⟨2, "B"⟩, 0, 5⟩)]),
         (3, [("n", ⟨13, "n", "blue", "", ⟨3, "C"⟩, 0, 3⟩)])]) 10
        [(1, [("n", ⟨11, "n", "red", "", ⟨1, "A"⟩, 0, 1⟩)]),
         (2, [("n", ⟨12, "n", "red", "", ⟨2, "B"⟩, 0, 5⟩)]),
         (3, [("n", ⟨13, "n", "blue", "", ⟨3, "C"⟩, 0, 3⟩)])])).create_labels 2 "n"
      = none :=
  ⟨by unfold NameKeyed; decide,
    c7_reapply_no_creates _ 10 (by unfold NameKeyed; decide) 2 "n"⟩

end LinearMaubot
